import Mathlib

/-!
Shallow embedding of `src/script.py` (IPTV playlist aggregator).

Python strings are modelled as `List Char`; the Python string methods used by
the script (`strip`, `title`, `lower`, `split`, `splitlines`, `startswith`,
substring `in`) are embedded with ASCII case semantics, matching CPython on
the ASCII range.  Floats appearing in `difflib` ratios are modelled as `ℚ`.
Network effects are modelled by outcome oracles; exceptions by `Except`.
-/

namespace IPTV

/-- Characters stripped by Python `str.strip()` (ASCII whitespace). -/
def isPyWs (c : Char) : Bool :=
  c = ' ' || c = '\t' || c = '\n' || c = '\r' || c = '\x0b' || c = '\x0c'

/-- Line-break characters recognised by Python `str.splitlines()`. -/
def isLineBreak (c : Char) : Bool :=
  c = '\n' || c = '\r' || c = '\x0b' || c = '\x0c' ||
  c = '\x1c' || c = '\x1d' || c = '\x1e' || c = '\x85' ||
  c = '\u2028' || c = '\u2029'

/-- Test for an ASCII lowercase letter. -/
def isAsciiLow (c : Char) : Bool := 97 ≤ c.toNat && c.toNat ≤ 122

/-- Test for an ASCII uppercase letter. -/
def isAsciiUp (c : Char) : Bool := 65 ≤ c.toNat && c.toNat ≤ 90

/-- Uppercase one character, ASCII model of Python case mapping. -/
def upChar (c : Char) : Char :=
  if isAsciiLow c then Char.ofNat (c.toNat - 32) else c

/-- Lowercase one character, ASCII model of Python case mapping. -/
def lowChar (c : Char) : Char :=
  if isAsciiUp c then Char.ofNat (c.toNat + 32) else c

/-- Python `cased` property of a character, restricted to the ASCII model. -/
def pyCased (c : Char) : Bool := isAsciiLow c || isAsciiUp c

theorem char_toNat_ofNat_valid {n : Nat} (h : n < 55296) : (Char.ofNat n).toNat = n := by
  have hv : n.isValidChar := Or.inl h
  rw [Char.ofNat, dif_pos hv]
  simp [Char.ofNatAux, Char.toNat, UInt32.toNat]

theorem upChar_toNat_of_low {c : Char} (h : isAsciiLow c = true) :
    (upChar c).toNat = c.toNat - 32 := by
  have hb : 97 ≤ c.toNat ∧ c.toNat ≤ 122 := by
    simpa [isAsciiLow, Bool.and_eq_true, decide_eq_true_eq] using h
  rw [upChar, if_pos h]
  exact char_toNat_ofNat_valid (by omega)

theorem lowChar_toNat_of_up {c : Char} (h : isAsciiUp c = true) :
    (lowChar c).toNat = c.toNat + 32 := by
  have hb : 65 ≤ c.toNat ∧ c.toNat ≤ 90 := by
    simpa [isAsciiUp, Bool.and_eq_true, decide_eq_true_eq] using h
  rw [lowChar, if_pos h]
  exact char_toNat_ofNat_valid (by omega)

theorem isAsciiLow_upChar (c : Char) : isAsciiLow (upChar c) = false := by
  by_cases h : isAsciiLow c = true
  · have hb : 97 ≤ c.toNat ∧ c.toNat ≤ 122 := by
      simpa [isAsciiLow, Bool.and_eq_true, decide_eq_true_eq] using h
    have ht := upChar_toNat_of_low h
    simp only [isAsciiLow, ht, Bool.and_eq_true, decide_eq_true_eq]
    simp only [Bool.and_eq_false_iff, decide_eq_false_iff_not]
    omega
  · rw [upChar, if_neg h]
    simpa using h

theorem isAsciiUp_upChar_of_low {c : Char} (h : isAsciiLow c = true) :
    isAsciiUp (upChar c) = true := by
  have hb : 97 ≤ c.toNat ∧ c.toNat ≤ 122 := by
    simpa [isAsciiLow, Bool.and_eq_true, decide_eq_true_eq] using h
  have ht := upChar_toNat_of_low h
  simp only [isAsciiUp, ht, Bool.and_eq_true, decide_eq_true_eq]
  omega

theorem isAsciiUp_lowChar (c : Char) : isAsciiUp (lowChar c) = false := by
  by_cases h : isAsciiUp c = true
  · have hb : 65 ≤ c.toNat ∧ c.toNat ≤ 90 := by
      simpa [isAsciiUp, Bool.and_eq_true, decide_eq_true_eq] using h
    have ht := lowChar_toNat_of_up h
    simp only [isAsciiUp, ht]
    simp only [Bool.and_eq_false_iff, decide_eq_false_iff_not]
    omega
  · rw [lowChar, if_neg h]
    simpa using h

theorem isAsciiLow_lowChar_of_up {c : Char} (h : isAsciiUp c = true) :
    isAsciiLow (lowChar c) = true := by
  have hb : 65 ≤ c.toNat ∧ c.toNat ≤ 90 := by
    simpa [isAsciiUp, Bool.and_eq_true, decide_eq_true_eq] using h
  have ht := lowChar_toNat_of_up h
  simp only [isAsciiLow, ht, Bool.and_eq_true, decide_eq_true_eq]
  omega

theorem upChar_of_not_low {c : Char} (h : isAsciiLow c = false) : upChar c = c := by
  rw [upChar, if_neg (by simp [h])]

theorem lowChar_of_not_up {c : Char} (h : isAsciiUp c = false) : lowChar c = c := by
  rw [lowChar, if_neg (by simp [h])]

theorem upChar_upChar (c : Char) : upChar (upChar c) = upChar c :=
  upChar_of_not_low (isAsciiLow_upChar c)

theorem lowChar_lowChar (c : Char) : lowChar (lowChar c) = lowChar c :=
  lowChar_of_not_up (isAsciiUp_lowChar c)

theorem pyCased_upChar (c : Char) : pyCased (upChar c) = pyCased c := by
  by_cases h : isAsciiLow c = true
  · simp [pyCased, isAsciiLow_upChar, isAsciiUp_upChar_of_low h, h]
  · rw [upChar_of_not_low (Bool.not_eq_true _ ▸ h)]

theorem pyCased_lowChar (c : Char) : pyCased (lowChar c) = pyCased c := by
  by_cases h : isAsciiUp c = true
  · simp [pyCased, isAsciiUp_lowChar, isAsciiLow_lowChar_of_up h, h]
  · rw [lowChar_of_not_up (Bool.not_eq_true _ ▸ h)]

theorem char_eq_iff_toNat {c : Char} {d : Char} : c = d ↔ c.toNat = d.toNat := by
  constructor
  · intro h; rw [h]
  · intro h
    exact Char.ext (UInt32.toNat.inj h)

theorem isPyWs_toNat (c : Char) :
    isPyWs c = (c.toNat = 32 || c.toNat = 9 || c.toNat = 10 ||
                c.toNat = 13 || c.toNat = 11 || c.toNat = 12) := by
  simp only [isPyWs, char_eq_iff_toNat]
  rfl

theorem not_isPyWs_of_toNat_range {c : Char} (h1 : 64 ≤ c.toNat) : isPyWs c = false := by
  rw [isPyWs_toNat]
  simp only [Bool.or_eq_false_iff, decide_eq_false_iff_not]
  omega

theorem isPyWs_upChar (c : Char) : isPyWs (upChar c) = isPyWs c := by
  by_cases h : isAsciiLow c = true
  · have hb : 97 ≤ c.toNat ∧ c.toNat ≤ 122 := by
      simpa [isAsciiLow, Bool.and_eq_true, decide_eq_true_eq] using h
    have ht := upChar_toNat_of_low h
    rw [not_isPyWs_of_toNat_range (by omega), not_isPyWs_of_toNat_range (by omega)]
  · rw [upChar_of_not_low (Bool.not_eq_true _ ▸ h)]

theorem isPyWs_lowChar (c : Char) : isPyWs (lowChar c) = isPyWs c := by
  by_cases h : isAsciiUp c = true
  · have hb : 65 ≤ c.toNat ∧ c.toNat ≤ 90 := by
      simpa [isAsciiUp, Bool.and_eq_true, decide_eq_true_eq] using h
    have ht := lowChar_toNat_of_up h
    rw [not_isPyWs_of_toNat_range (by omega), not_isPyWs_of_toNat_range (by omega)]
  · rw [lowChar_of_not_up (Bool.not_eq_true _ ▸ h)]

theorem upChar_of_ws {c : Char} (h : isPyWs c = true) : upChar c = c := by
  apply upChar_of_not_low
  rw [isPyWs_toNat] at h
  simp only [Bool.or_eq_true, decide_eq_true_eq] at h
  simp only [isAsciiLow, Bool.and_eq_false_iff, decide_eq_false_iff_not]
  omega

theorem lowChar_of_ws {c : Char} (h : isPyWs c = true) : lowChar c = c := by
  apply lowChar_of_not_up
  rw [isPyWs_toNat] at h
  simp only [Bool.or_eq_true, decide_eq_true_eq] at h
  simp only [isAsciiUp, Bool.and_eq_false_iff, decide_eq_false_iff_not]
  omega

theorem pyCased_of_ws {c : Char} (h : isPyWs c = true) : pyCased c = false := by
  rw [isPyWs_toNat] at h
  simp only [Bool.or_eq_true, decide_eq_true_eq] at h
  simp only [pyCased, isAsciiLow, isAsciiUp, Bool.or_eq_false_iff,
    Bool.and_eq_false_iff, decide_eq_false_iff_not]
  omega

/-- Python `str.strip()`: remove leading and trailing ASCII whitespace. -/
def pyStrip (l : List Char) : List Char :=
  ((l.dropWhile isPyWs).reverse.dropWhile isPyWs).reverse

/-- One pass of Python `str.title()`: the boolean is whether the previous
character was cased; a cased character after a cased one is lowercased,
otherwise it is uppercased. -/
def titleGo : Bool → List Char → List Char
  | _, [] => []
  | prev, c :: cs => (if prev then lowChar c else upChar c) :: titleGo (pyCased c) cs

/-- Python `str.title()`. -/
def pyTitle (l : List Char) : List Char := titleGo false l

/-- Python `str.lower()` on the ASCII model. -/
def pyLower (l : List Char) : List Char := l.map lowChar

/-- Fuel-indexed splitter behind `pyWords`; the fuel only serves structural
recursion and is irrelevant as long as it exceeds the string length. -/
def wordsFuel : Nat → List Char → List (List Char)
  | 0, _ => []
  | n + 1, l =>
    match l.dropWhile isPyWs with
    | [] => []
    | c :: cs =>
      (c :: cs.takeWhile (fun d => !isPyWs d)) :: wordsFuel n (cs.dropWhile (fun d => !isPyWs d))

/-- Python `str.split()` with no separator: maximal whitespace-free runs. -/
def pyWords (l : List Char) : List (List Char) := wordsFuel (l.length + 1) l

theorem wordsFuel_irrel : ∀ n m : Nat, ∀ l : List Char, l.length < n → l.length < m →
    wordsFuel n l = wordsFuel m l := by
  intro n
  induction n with
  | zero => intro m l hn; omega
  | succ n ih =>
    intro m l hn hm
    match m, hm with
    | m + 1, hm =>
      show wordsFuel (n + 1) l = wordsFuel (m + 1) l
      rw [wordsFuel, wordsFuel]
      match hd : l.dropWhile isPyWs with
      | [] => rfl
      | c :: cs =>
        have h1 : (l.dropWhile isPyWs).length ≤ l.length := (List.dropWhile_sublist _).length_le
        rw [hd] at h1
        have h2 : List.Sublist (cs.dropWhile fun d => !isPyWs d) cs :=
          List.dropWhile_sublist _
        have h2l := h2.length_le
        simp only [List.length_cons] at h1
        exact congrArg (fun t => (c :: cs.takeWhile fun d => !isPyWs d) :: t)
          (ih m (cs.dropWhile fun d => !isPyWs d) (by omega) (by omega))

/-- Python `" ".join(ws)`. -/
def joinSp : List (List Char) → List Char
  | [] => []
  | [w] => w
  | w :: w2 :: ws => w ++ ' ' :: joinSp (w2 :: ws)

/-- Predicate for a well-formed word: nonempty and free of whitespace. -/
def GoodWord (w : List Char) : Prop := w ≠ [] ∧ ∀ c ∈ w, isPyWs c = false

theorem titleGo_titleGo (l : List Char) : ∀ b, titleGo b (titleGo b l) = titleGo b l := by
  induction l with
  | nil => intro b; rfl
  | cons c cs ih =>
    intro b
    cases b with
    | false =>
      show upChar (upChar c) :: titleGo (pyCased (upChar c)) (titleGo (pyCased c) cs) =
        upChar c :: titleGo (pyCased c) cs
      rw [upChar_upChar, pyCased_upChar, ih]
    | true =>
      show lowChar (lowChar c) :: titleGo (pyCased (lowChar c)) (titleGo (pyCased c) cs) =
        lowChar c :: titleGo (pyCased c) cs
      rw [lowChar_lowChar, pyCased_lowChar, ih]

theorem length_titleGo (l : List Char) : ∀ b, (titleGo b l).length = l.length := by
  induction l with
  | nil => intro b; rfl
  | cons c cs ih => intro b; simp [titleGo, ih]

theorem isPyWs_titleChar (b : Bool) (c : Char) :
    isPyWs (if b then lowChar c else upChar c) = isPyWs c := by
  cases b with
  | false => simp [isPyWs_upChar]
  | true => simp [isPyWs_lowChar]

theorem mem_titleGo_not_ws {l : List Char} (hl : ∀ c ∈ l, isPyWs c = false) :
    ∀ b, ∀ c ∈ titleGo b l, isPyWs c = false := by
  induction l with
  | nil => intro b c hc; simp [titleGo] at hc
  | cons d ds ih =>
    intro b c hc
    simp only [titleGo, List.mem_cons] at hc
    rcases hc with hc | hc
    · rw [hc, isPyWs_titleChar]
      exact hl d (List.mem_cons_self d ds)
    · exact ih (fun x hx => hl x (List.mem_cons_of_mem d hx)) (pyCased d) c hc

theorem titleGo_ws_head {d : Char} (hd : isPyWs d = true) (ds : List Char) (b : Bool) :
    titleGo b (d :: ds) = d :: titleGo false ds := by
  cases b with
  | false => simp [titleGo, upChar_of_ws hd, pyCased_of_ws hd]
  | true => simp [titleGo, lowChar_of_ws hd, pyCased_of_ws hd]

theorem titleGo_append_sp (w : List Char) : ∀ b rest,
    titleGo b (w ++ ' ' :: rest) = titleGo b w ++ ' ' :: titleGo false rest := by
  induction w with
  | nil =>
    intro b rest
    simpa using titleGo_ws_head (by decide) rest b
  | cons c cs ih =>
    intro b rest
    simp only [List.cons_append, titleGo, List.cons.injEq, true_and]
    exact ih (pyCased c) rest

theorem takeWhile_titleGo (l : List Char) : ∀ b,
    (titleGo b l).takeWhile (fun d => !isPyWs d) =
      titleGo b (l.takeWhile fun d => !isPyWs d) := by
  induction l with
  | nil => intro b; rfl
  | cons c cs ih =>
    intro b
    by_cases hc : isPyWs c = true
    · show List.takeWhile _ ((if b then lowChar c else upChar c) :: titleGo (pyCased c) cs) = _
      rw [List.takeWhile_cons_of_neg (by simp [isPyWs_titleChar, hc]),
        List.takeWhile_cons_of_neg (by simp [hc])]
      rfl
    · have hc2 : isPyWs c = false := Bool.not_eq_true _ ▸ hc
      show List.takeWhile _ ((if b then lowChar c else upChar c) :: titleGo (pyCased c) cs) = _
      rw [List.takeWhile_cons_of_pos (by simp [isPyWs_titleChar, hc2]),
        List.takeWhile_cons_of_pos (by simp [hc2])]
      show _ :: List.takeWhile _ (titleGo (pyCased c) cs) =
        (if b then lowChar c else upChar c) ::
          titleGo (pyCased c) (List.takeWhile (fun d => !isPyWs d) cs)
      rw [ih (pyCased c)]

theorem dropWhile_titleGo (l : List Char) : ∀ b, ∃ b2,
    (titleGo b l).dropWhile (fun d => !isPyWs d) =
      titleGo b2 (l.dropWhile fun d => !isPyWs d) := by
  induction l with
  | nil => intro b; exact ⟨b, rfl⟩
  | cons c cs ih =>
    intro b
    by_cases hc : isPyWs c = true
    · refine ⟨b, ?_⟩
      show List.dropWhile _ ((if b then lowChar c else upChar c) :: titleGo (pyCased c) cs) = _
      rw [List.dropWhile_cons_of_neg (by simp [isPyWs_titleChar, hc]),
        List.dropWhile_cons_of_neg (by simp [hc])]
      rfl
    · have hc2 : isPyWs c = false := Bool.not_eq_true _ ▸ hc
      obtain ⟨b2, hb2⟩ := ih (pyCased c)
      refine ⟨b2, ?_⟩
      show List.dropWhile _ ((if b then lowChar c else upChar c) :: titleGo (pyCased c) cs) = _
      rw [List.dropWhile_cons_of_pos (by simp [isPyWs_titleChar, hc2]),
        List.dropWhile_cons_of_pos (by simp [hc2])]
      exact hb2

theorem titleGo_cons (b : Bool) (c : Char) (cs : List Char) :
    titleGo b (c :: cs) = (if b then lowChar c else upChar c) :: titleGo (pyCased c) cs := rfl

theorem pyWords_nil : pyWords [] = [] := rfl

theorem pyWords_ws_cons {c : Char} (hc : isPyWs c = true) (l : List Char) :
    pyWords (c :: l) = pyWords l := by
  show wordsFuel (l.length + 1 + 1) (c :: l) = wordsFuel (l.length + 1) l
  rw [wordsFuel, wordsFuel, List.dropWhile_cons_of_pos hc]
  match hd : l.dropWhile isPyWs with
  | [] => rfl
  | c2 :: cs =>
    have h1 : (l.dropWhile isPyWs).length ≤ l.length := (List.dropWhile_sublist _).length_le
    rw [hd] at h1
    simp only [List.length_cons] at h1
    have h2 : List.Sublist (cs.dropWhile fun d => !isPyWs d) cs := List.dropWhile_sublist _
    have h2l := h2.length_le
    exact congrArg (fun t => (c2 :: cs.takeWhile fun d => !isPyWs d) :: t)
      (wordsFuel_irrel (l.length + 1) l.length _ (by omega) (by omega))

theorem pyWords_cons {c : Char} (hc : isPyWs c = false) (l : List Char) :
    pyWords (c :: l) = (c :: l.takeWhile (fun d => !isPyWs d)) ::
      pyWords (l.dropWhile (fun d => !isPyWs d)) := by
  show wordsFuel (l.length + 1 + 1) (c :: l) = _
  rw [wordsFuel, List.dropWhile_cons_of_neg (by simp [hc])]
  have h2 : List.Sublist (l.dropWhile fun d => !isPyWs d) l := List.dropWhile_sublist _
  have h2l := h2.length_le
  exact congrArg (fun t => (c :: l.takeWhile fun d => !isPyWs d) :: t)
    (wordsFuel_irrel (l.length + 1) ((l.dropWhile fun d => !isPyWs d).length + 1) _
      (by omega) (by omega))

theorem takeWhile_of_all_not_ws {l : List Char} (h : ∀ c ∈ l, isPyWs c = false) :
    l.takeWhile (fun d => !isPyWs d) = l := by
  induction l with
  | nil => rfl
  | cons c cs ih =>
    rw [List.takeWhile_cons_of_pos (by simp [h c (List.mem_cons_self c cs)])]
    rw [ih fun x hx => h x (List.mem_cons_of_mem c hx)]

theorem dropWhile_of_all_not_ws {l : List Char} (h : ∀ c ∈ l, isPyWs c = false) :
    l.dropWhile (fun d => !isPyWs d) = [] := by
  induction l with
  | nil => rfl
  | cons c cs ih =>
    rw [List.dropWhile_cons_of_pos (by simp [h c (List.mem_cons_self c cs)])]
    exact ih fun x hx => h x (List.mem_cons_of_mem c hx)

theorem dropWhile_head_false {p : Char → Bool} :
    ∀ (l : List Char) {d : Char} {ds : List Char}, l.dropWhile p = d :: ds → p d = false := by
  intro l
  induction l with
  | nil => intro d ds h; simp [List.dropWhile] at h
  | cons c cs ih =>
    intro d ds h
    by_cases hc : p c = true
    · rw [List.dropWhile_cons_of_pos hc] at h
      exact ih h
    · rw [List.dropWhile_cons_of_neg hc] at h
      cases h
      exact Bool.not_eq_true _ ▸ hc

theorem pyWords_good : ∀ n, ∀ l : List Char, l.length ≤ n →
    ∀ w ∈ pyWords l, GoodWord w := by
  intro n
  induction n with
  | zero =>
    intro l hl w hw
    rw [Nat.le_zero] at hl
    rw [List.eq_nil_of_length_eq_zero hl, pyWords_nil] at hw
    exact absurd hw (List.not_mem_nil w)
  | succ n ih =>
    intro l hl w hw
    match l with
    | [] =>
      rw [pyWords_nil] at hw
      exact absurd hw (List.not_mem_nil w)
    | c :: cs =>
      by_cases hc : isPyWs c = true
      · rw [pyWords_ws_cons hc] at hw
        exact ih cs (by simpa using Nat.le_of_succ_le_succ hl) w hw
      · have hc2 : isPyWs c = false := Bool.not_eq_true _ ▸ hc
        rw [pyWords_cons hc2] at hw
        rcases List.mem_cons.mp hw with hw | hw
        · subst hw
          refine ⟨by simp, ?_⟩
          intro x hx
          rcases List.mem_cons.mp hx with hx | hx
          · rw [hx]; exact hc2
          · have := List.mem_takeWhile_imp hx
            simpa using this
        · have hlen : (cs.dropWhile fun d => !isPyWs d).length ≤ n := by
            have := (List.dropWhile_sublist (l := cs) fun d => !isPyWs d).length_le
            have hl2 : cs.length ≤ n := by simpa using Nat.le_of_succ_le_succ hl
            omega
          exact ih _ hlen w hw

theorem pyWords_titleGo : ∀ n, ∀ l : List Char, l.length ≤ n →
    pyWords (titleGo false l) = (pyWords l).map (titleGo false) := by
  intro n
  induction n with
  | zero =>
    intro l hl
    rw [Nat.le_zero] at hl
    rw [List.eq_nil_of_length_eq_zero hl]
    simp [titleGo, pyWords_nil]
  | succ n ih =>
    intro l hl
    match l with
    | [] => simp [titleGo, pyWords_nil]
    | c :: cs =>
      by_cases hc : isPyWs c = true
      · rw [titleGo_ws_head hc, pyWords_ws_cons hc, pyWords_ws_cons hc]
        exact ih cs (by simpa using Nat.le_of_succ_le_succ hl)
      · have hc2 : isPyWs c = false := Bool.not_eq_true _ ▸ hc
        have hl2 : cs.length ≤ n := by simpa using Nat.le_of_succ_le_succ hl
        rw [titleGo_cons, if_neg (by simp)]
        rw [pyWords_cons (by rw [isPyWs_upChar]; exact hc2)]
        rw [pyWords_cons hc2]
        rw [takeWhile_titleGo]
        obtain ⟨b2, hb2⟩ := dropWhile_titleGo cs (pyCased c)
        rw [hb2]
        have hlen : (cs.dropWhile fun d => !isPyWs d).length ≤ n := by
          have hsub : List.Sublist (cs.dropWhile fun d => !isPyWs d) cs :=
            List.dropWhile_sublist _
          have := hsub.length_le
          omega
        have htail : pyWords (titleGo b2 (cs.dropWhile fun d => !isPyWs d)) =
            (pyWords (cs.dropWhile fun d => !isPyWs d)).map (titleGo false) := by
          match hdw : cs.dropWhile fun d => !isPyWs d with
          | [] =>
            cases b2 <;> simp [titleGo, pyWords_nil]
          | d :: ds =>
            have hd : isPyWs d = true := by
              have := dropWhile_head_false cs hdw
              simpa using this
            rw [titleGo_ws_head hd]
            rw [← titleGo_ws_head hd ds false]
            have hlen2 : (d :: ds).length ≤ n := hdw ▸ hlen
            exact ih (d :: ds) hlen2
        rw [htail]
        simp only [List.map_cons, titleGo_cons, if_neg (by simp : ¬false = true)]

theorem pyWords_joinSp : ∀ ws : List (List Char), (∀ w ∈ ws, GoodWord w) →
    pyWords (joinSp ws) = ws := by
  intro ws
  induction ws with
  | nil => intro hg; exact pyWords_nil
  | cons w ws ih =>
    intro hg
    obtain ⟨hne, hnw⟩ := hg w (List.mem_cons_self w ws)
    match w, ws with
    | c :: w2, [] =>
      have hc : isPyWs c = false := hnw c (List.mem_cons_self c w2)
      show pyWords (c :: w2) = [c :: w2]
      rw [pyWords_cons hc,
        takeWhile_of_all_not_ws fun x hx => hnw x (List.mem_cons_of_mem c hx),
        dropWhile_of_all_not_ws fun x hx => hnw x (List.mem_cons_of_mem c hx),
        pyWords_nil]
    | c :: w2, v :: ws =>
      have hc : isPyWs c = false := hnw c (List.mem_cons_self c w2)
      have hw2 : ∀ x ∈ w2, isPyWs x = false := fun x hx => hnw x (List.mem_cons_of_mem c hx)
      show pyWords (c :: (w2 ++ ' ' :: joinSp (v :: ws))) = (c :: w2) :: v :: ws
      rw [pyWords_cons hc]
      rw [List.takeWhile_append_of_pos (by intro a ha; simp [hw2 a ha])]
      rw [List.takeWhile_cons_of_neg (by decide)]
      rw [List.dropWhile_append_of_pos (by intro a ha; simp [hw2 a ha])]
      rw [List.dropWhile_cons_of_neg (by decide)]
      rw [pyWords_ws_cons (by decide)]
      rw [ih fun x hx => hg x (List.mem_cons_of_mem _ hx)]
      simp

theorem joinSp_ne_nil {w : List Char} {ws : List (List Char)} (hne : w ≠ []) :
    joinSp (w :: ws) ≠ [] := by
  match w, ws with
  | w, [] => exact hne
  | c :: w2, v :: ws => simp [joinSp]
  | [], v :: ws => exact absurd rfl hne

theorem head_joinSp_not_ws {w : List Char} {ws : List (List Char)} (hg : GoodWord w) :
    ∀ c t, joinSp (w :: ws) = c :: t → isPyWs c = false := by
  obtain ⟨hne, hnw⟩ := hg
  match w, ws with
  | [], _ => exact absurd rfl hne
  | d :: w2, [] =>
    intro c t h
    cases h
    exact hnw d (List.mem_cons_self d w2)
  | d :: w2, v :: ws =>
    intro c t h
    have : joinSp ((d :: w2) :: v :: ws) = d :: (w2 ++ ' ' :: joinSp (v :: ws)) := rfl
    rw [this] at h
    cases h
    exact hnw d (List.mem_cons_self d w2)

theorem getLast?_joinSp : ∀ (ws : List (List Char)), (∀ w ∈ ws, GoodWord w) →
    ∀ c, (joinSp ws).getLast? = some c → isPyWs c = false := by
  intro ws
  induction ws with
  | nil => intro hg c h; simp [joinSp] at h
  | cons w ws ih =>
    intro hg c h
    match w, ws with
    | w, [] =>
      have := List.mem_of_getLast?_eq_some h
      exact (hg w (List.mem_cons_self w [])).2 c this
    | w, v :: ws =>
      have hj : joinSp (w :: v :: ws) = w ++ ' ' :: joinSp (v :: ws) := rfl
      rw [hj, List.getLast?_append] at h
      have hvne : joinSp (v :: ws) ≠ [] :=
        joinSp_ne_nil (hg v (List.mem_cons_of_mem w (List.mem_cons_self v ws))).1
      have hgl : (' ' :: joinSp (v :: ws)).getLast? = (joinSp (v :: ws)).getLast? := by
        match hv : joinSp (v :: ws) with
        | [] => exact absurd hv hvne
        | x :: xs => simp
      rw [hgl] at h
      match hsome : (joinSp (v :: ws)).getLast? with
      | none => simp [List.getLast?_eq_none_iff] at hsome; exact absurd hsome hvne
      | some d =>
        rw [hsome] at h
        simp only [Option.or_some] at h
        cases h
        exact ih (fun x hx => hg x (List.mem_cons_of_mem w hx)) c hsome

theorem dropWhile_eq_self_of_head {p : Char → Bool} {l : List Char}
    (h : ∀ c t, l = c :: t → p c = false) : l.dropWhile p = l := by
  match l with
  | [] => rfl
  | c :: t => exact List.dropWhile_cons_of_neg (by simp [h c t rfl])

theorem pyStrip_joinSp (ws : List (List Char)) (hg : ∀ w ∈ ws, GoodWord w) :
    pyStrip (joinSp ws) = joinSp ws := by
  match ws with
  | [] => rfl
  | w :: ws =>
    rw [pyStrip]
    rw [dropWhile_eq_self_of_head (head_joinSp_not_ws (hg w (List.mem_cons_self w ws)))]
    rw [dropWhile_eq_self_of_head ?hrev]
    · exact List.reverse_reverse _
    · intro c t h
      have hh : (joinSp (w :: ws)).reverse.head? = some c := by rw [h]; rfl
      rw [List.head?_reverse] at hh
      exact getLast?_joinSp _ hg c hh

theorem titleGo_joinSp : ∀ ws : List (List Char),
    titleGo false (joinSp ws) = joinSp (ws.map (titleGo false)) := by
  intro ws
  induction ws with
  | nil => rfl
  | cons w ws ih =>
    match ws with
    | [] => rfl
    | v :: ws2 =>
      have hj : joinSp (w :: v :: ws2) = w ++ ' ' :: joinSp (v :: ws2) := rfl
      rw [hj, titleGo_append_sp, ih]
      rfl

theorem goodWord_titleGo {w : List Char} (hg : GoodWord w) : GoodWord (titleGo false w) := by
  obtain ⟨hne, hnw⟩ := hg
  constructor
  · intro h
    have := length_titleGo w false
    rw [h] at this
    exact hne (List.eq_nil_of_length_eq_zero this.symm)
  · exact mem_titleGo_not_ws hnw false

/-- First normalisation stage of `normalize_category` in `src/script.py`:
`category.strip().title()` followed by `" ".join(category.split())`. -/
def normCore (l : List Char) : List Char := joinSp (pyWords (pyTitle (pyStrip l)))

theorem map_titleGo_pyWords_title (m : List Char) :
    (pyWords (pyTitle m)).map (titleGo false) = pyWords (pyTitle m) := by
  rw [pyTitle, pyWords_titleGo m.length m (Nat.le_refl _), List.map_map]
  apply List.map_congr_left
  intro w _
  exact titleGo_titleGo w false

theorem normCore_idem (l : List Char) : normCore (normCore l) = normCore l := by
  have hg : ∀ w ∈ pyWords (pyTitle (pyStrip l)), GoodWord w :=
    pyWords_good (pyTitle (pyStrip l)).length _ (Nat.le_refl _)
  show normCore (joinSp (pyWords (pyTitle (pyStrip l)))) = _
  rw [normCore, pyStrip_joinSp _ hg, pyTitle, titleGo_joinSp,
    map_titleGo_pyWords_title, pyWords_joinSp _ hg]
  rfl

/-! Embedding of the parts of `difflib` used by `normalize_category`:
`SequenceMatcher` ratios (no junk: the strings involved are far below the
autojunk threshold of 200) and `get_close_matches` with `n=1`.  Float
ratios are modelled as rationals; the cutoff `0.7` is modelled as `7/10`. -/

/-- Length of the common prefix of two character lists. -/
def commonRun : List Char → List Char → Nat
  | a :: as, b :: bs => if a = b then commonRun as bs + 1 else 0
  | _, _ => 0

/-- Length of the matching run of `a` and `b` starting at `i`, `j`, clipped
to the ranges ending at `ahi`, `bhi`. -/
def runAt (a b : List Char) (ahi bhi i j : Nat) : Nat :=
  commonRun ((a.drop i).take (ahi - i)) ((b.drop j).take (bhi - j))

/-- The `find_longest_match` of `difflib.SequenceMatcher` without junk:
the longest matching block in `a[alo:ahi] × b[blo:bhi]`, ties resolved by
the earliest start in `a`, then the earliest start in `b`; returned as
`(besti, bestj, bestsize)` with the initial value `(alo, blo, 0)`. -/
def find_longest_match (a b : List Char) (alo ahi blo bhi : Nat) : Nat × Nat × Nat :=
  (List.range' alo (ahi - alo)).foldl (fun best i =>
    (List.range' blo (bhi - blo)).foldl (fun best j =>
      let k := runAt a b ahi bhi i j
      if best.2.2 < k then (i, j, k) else best) best) (alo, blo, 0)

/-- Total size of the matching blocks of `get_matching_blocks`, by recursive
splitting around the longest match.  The fuel argument only drives structural
recursion: every recursive call strictly decreases `(ahi-alo)+(bhi-blo)`, so
the initial fuel `a.length + b.length + 1` used below never runs out. -/
def matchSumFuel (a b : List Char) : Nat → Nat → Nat → Nat → Nat → Nat
  | 0, _, _, _, _ => 0
  | fuel + 1, alo, ahi, blo, bhi =>
    let r := find_longest_match a b alo ahi blo bhi
    if r.2.2 = 0 then 0
    else matchSumFuel a b fuel alo r.1 blo r.2.1 + r.2.2 +
      matchSumFuel a b fuel (r.1 + r.2.2) ahi (r.2.1 + r.2.2) bhi

/-- Total matched characters between `a` and `b` (Ratcliff-Obershelp). -/
def matchSum (a b : List Char) : Nat :=
  matchSumFuel a b (a.length + b.length + 1) 0 a.length 0 b.length

/-- The `_calculate_ratio` helper of `difflib`: the value `2m / length` as a
rational (`mkRat` is used rather than field division so that the kernel can
evaluate it on concrete inputs; the value is the same). -/
def calcRatio (m length : Nat) : ℚ :=
  if length = 0 then 1 else mkRat (2 * m) length

/-- The `ratio()` of `SequenceMatcher(None, a, b)`. -/
def seqRatio (a b : List Char) : ℚ := calcRatio (matchSum a b) (a.length + b.length)

/-- Matched character count of `quick_ratio()`: multiset intersection. -/
def quickMatches (a b : List Char) : Nat :=
  a.dedup.foldl (fun acc c => acc + min (a.count c) (b.count c)) 0

/-- The `quick_ratio()` upper bound of `difflib`. -/
def quickRatio (a b : List Char) : ℚ := calcRatio (quickMatches a b) (a.length + b.length)

/-- The `real_quick_ratio()` upper bound of `difflib`. -/
def realQuickRatio (a b : List Char) : ℚ :=
  calcRatio (min a.length b.length) (a.length + b.length)

/-- The cutoff test of `get_close_matches`:  `a` is the candidate (`set_seq1`),
`word` the query (`set_seq2`).  The three ratio stages short-circuit exactly
as in `difflib`. -/
def closeEnough (x word : List Char) (cutoff : ℚ) : Bool :=
  decide (cutoff ≤ realQuickRatio x word) && decide (cutoff ≤ quickRatio x word) &&
    decide (cutoff ≤ seqRatio x word)

/-- Python string comparison (code-point lexicographic). -/
def pyStrLt : List Char → List Char → Bool
  | [], [] => false
  | [], _ :: _ => true
  | _ :: _, [] => false
  | a :: as, b :: bs => if a = b then pyStrLt as bs else decide (a < b)

/-- Pick the largest `(score, string)` pair in the sense of Python tuple
comparison, as `heapq.nlargest(1, result)` does. -/
def pickBest : List (ℚ × List Char) → Option (ℚ × List Char)
  | [] => none
  | p :: ps =>
    match pickBest ps with
    | none => some p
    | some q => if q.1 < p.1 || (p.1 = q.1 && pyStrLt q.2 p.2) then some p else some q

/-- The `difflib.get_close_matches(word, possibilities, n=1, cutoff)` call,
returning the best match if any candidate passes the cutoff. -/
def get_close_matches1 (word : List Char) (poss : List (List Char)) (cutoff : ℚ) :
    Option (List Char) :=
  let scored := poss.filterMap fun x =>
    if closeEnough x word cutoff then some (seqRatio x word, x) else none
  (pickBest scored).map fun p => p.2

/-- The `CATEGORY_MAPPING` constant of `src/script.py`, in declaration order. -/
def CATEGORY_MAPPING : List (List Char × List Char) :=
  [("Sport".data, "Sports".data),
   ("Movie".data, "Movies".data),
   ("News".data, ("News & Politics").data)]

/-- The `FILTER_CATEGORIES` constant of `src/script.py`. -/
def FILTER_CATEGORIES : List (List Char) := ["Adult".data, "XXX".data, "Erotic".data]

/-- Python substring test `needle in hay` for strings. -/
def pyInStr (needle : List Char) : List Char → Bool
  | [] => needle.isEmpty
  | c :: t => needle.isPrefixOf (c :: t) || pyInStr needle t

/-- The substring-mapping loop of `normalize_category`: the first key that
occurs case-insensitively inside the category replaces it by its value. -/
def findSubstKey (category : List Char) : List (List Char × List Char) → Option (List Char)
  | [] => none
  | (k, v) :: rest =>
    if pyInStr (pyLower k) (pyLower category) then some v else findSubstKey category rest

/-- Dictionary access `CATEGORY_MAPPING[k]`; all callers use a genuine key. -/
def mappingValue (k : List Char) : List Char := (CATEGORY_MAPPING.lookup k).getD []

/-- The `normalize_category` function of `src/script.py`. -/
def normalize_category (category : List Char) (use_mapping use_difflib : Bool) : List Char :=
  let category := normCore category
  if use_mapping then
    if use_difflib then
      match get_close_matches1 category (CATEGORY_MAPPING.map fun p => p.1) (mkRat 7 10) with
      | some m => mappingValue m
      | none => category
    else
      match findSubstKey category CATEGORY_MAPPING with
      | some v => v
      | none => category
  else category

/-- The `Channel` dataclass of `src/script.py`; dataclass equality compares
all four fields. -/
structure Channel where
  name : List Char
  category : List Char
  url : List Char
  metadata : List (List Char × List Char)
deriving DecidableEq

/-- The deny-list test inside `clean_channels`. -/
def isFiltered (normalized : List Char) : Bool :=
  FILTER_CATEGORIES.any fun f => pyInStr (pyLower f) (pyLower normalized)

/-- The `clean_channels` function of `src/script.py`, with the in-place
mutation `ch.category = normalized_category` made explicit: the first
component is the input list as mutated by the pass, the second the list of
kept (cleaned) channels.  A channel dropped by the deny-list is not mutated. -/
def clean_channelsM (channels : List Channel) (use_mapping use_difflib : Bool) :
    List Channel × List Channel :=
  match channels with
  | [] => ([], [])
  | ch :: rest =>
    let nc := normalize_category ch.category use_mapping use_difflib
    let r := clean_channelsM rest use_mapping use_difflib
    if isFiltered nc then (ch :: r.1, r.2)
    else
      let ch2 : Channel := ⟨ch.name, nc, ch.url, ch.metadata⟩
      (ch2 :: r.1, ch2 :: r.2)

/-- Return value of `clean_channels` (the cleaned list). -/
def clean_channels (channels : List Channel) (use_mapping use_difflib : Bool) : List Channel :=
  (clean_channelsM channels use_mapping use_difflib).2

theorem pickBest_mem : ∀ (l : List (ℚ × List Char)) (p : ℚ × List Char),
    pickBest l = some p → p ∈ l := by
  intro l
  induction l with
  | nil => intro p h; simp [pickBest] at h
  | cons q qs ih =>
    intro p h
    rw [pickBest] at h
    match hqs : pickBest qs with
    | none => rw [hqs] at h; cases h; exact List.mem_cons_self _ _
    | some r =>
      rw [hqs] at h
      have h2 : (if (decide (r.1 < q.1) || (decide (q.1 = r.1) && pyStrLt r.2 q.2)) = true
          then some q else some r) = some p := h
      by_cases hc : (decide (r.1 < q.1) || (decide (q.1 = r.1) && pyStrLt r.2 q.2)) = true
      · rw [if_pos hc] at h2; cases h2; exact List.mem_cons_self _ _
      · rw [if_neg hc] at h2
        cases h2
        exact List.mem_cons_of_mem _ (ih _ hqs)

theorem get_close_matches1_mem {word m : List Char} {poss : List (List Char)} {cutoff : ℚ}
    (h : get_close_matches1 word poss cutoff = some m) : m ∈ poss := by
  rw [get_close_matches1] at h
  rw [Option.map_eq_some'] at h
  obtain ⟨p, hp, hpm⟩ := h
  have hmem := pickBest_mem _ _ hp
  rw [List.mem_filterMap] at hmem
  obtain ⟨x, hx, hfx⟩ := hmem
  by_cases hce : closeEnough x word cutoff = true
  · rw [if_pos hce] at hfx
    cases hfx
    rw [← hpm]
    exact hx
  · rw [if_neg hce] at hfx
    exact absurd hfx (by simp)

theorem findSubstKey_mem {c v : List Char} :
    ∀ {l : List (List Char × List Char)}, findSubstKey c l = some v →
      v ∈ l.map fun p => p.2 := by
  intro l
  induction l with
  | nil => intro h; simp [findSubstKey] at h
  | cons kv rest ih =>
    intro h
    match kv, h with
    | (k, w), h =>
      rw [findSubstKey] at h
      by_cases hc : pyInStr (pyLower k) (pyLower c) = true
      · rw [if_pos hc] at h
        cases h
        exact List.mem_cons_self _ _
      · rw [if_neg hc] at h
        exact List.mem_cons_of_mem _ (ih h)

theorem normalize_category_no_mapping (x : List Char) (ud : Bool) :
    normalize_category x false ud = normCore x := rfl

theorem normalize_category_substr (x : List Char) :
    normalize_category x true false =
      match findSubstKey (normCore x) CATEGORY_MAPPING with
      | some v => v
      | none => normCore x := rfl

theorem normalize_category_difflib (x : List Char) :
    normalize_category x true true =
      match get_close_matches1 (normCore x) (CATEGORY_MAPPING.map fun p => p.1)
          (mkRat 7 10) with
      | some m => mappingValue m
      | none => normCore x := rfl

set_option maxRecDepth 8000

/-- C7: `normalize_category` is idempotent: for every category string and every
fixed setting of the `use_mapping` and `use_difflib` flags, applying it twice
under the same setting gives the same result as applying it once. -/
theorem C7_normalize_category_idem (x : List Char) (um ud : Bool) :
    normalize_category (normalize_category x um ud) um ud = normalize_category x um ud := by
  cases um with
  | false => exact normCore_idem x
  | true =>
    cases ud with
    | false =>
      cases hv : findSubstKey (normCore x) CATEGORY_MAPPING with
      | some v =>
        have hy : normalize_category x true false = v := by
          rw [normalize_category_substr, hv]
        rw [hy]
        have hvals := findSubstKey_mem hv
        simp only [CATEGORY_MAPPING, List.map_cons, List.map_nil, List.mem_cons,
          List.not_mem_nil, or_false] at hvals
        rcases hvals with h | h | h <;> (subst h; decide)
      | none =>
        have hy : normalize_category x true false = normCore x := by
          rw [normalize_category_substr, hv]
        rw [hy, normalize_category_substr, normCore_idem, hv]
    | true =>
      cases hm : get_close_matches1 (normCore x) (CATEGORY_MAPPING.map fun p => p.1)
          (mkRat 7 10) with
      | some m =>
        have hy : normalize_category x true true = mappingValue m := by
          rw [normalize_category_difflib, hm]
        rw [hy]
        have hmem := get_close_matches1_mem hm
        simp only [CATEGORY_MAPPING, List.map_cons, List.map_nil, List.mem_cons,
          List.not_mem_nil, or_false] at hmem
        rcases hmem with h | h | h <;> (subst h; decide)
      | none =>
        have hy : normalize_category x true true = normCore x := by
          rw [normalize_category_difflib, hm]
        rw [hy, normalize_category_difflib, normCore_idem, hm]

theorem clean_channelsM_singleton (ch : Channel) (um ud : Bool) :
    clean_channelsM [ch] um ud =
      if isFiltered (normalize_category ch.category um ud)
      then ([ch], [])
      else ([⟨ch.name, normalize_category ch.category um ud, ch.url, ch.metadata⟩],
            [⟨ch.name, normalize_category ch.category um ud, ch.url, ch.metadata⟩]) := rfl

/-- C6 counterexample: a channel with raw category `"XXX Movies"` is NOT
dropped by `clean_channels` under the substring-mapping configuration
(`use_mapping = True`, `use_difflib = False`): the key `"Movie"` matches as a
substring, the category is rewritten to `"Movies"`, and the deny-list no
longer matches, so the channel is kept. -/
theorem C6_counterexample_xxx_movies_kept_under_substring_mapping :
    clean_channels [⟨"Chan".data, "XXX Movies".data, "http://u".data, []⟩] true false =
      [⟨"Chan".data, "Movies".data, "http://u".data, []⟩] ∧
    normalize_category "XXX Movies".data true false = "Movies".data := by
  constructor
  · decide
  · decide

/-- C6 amended: a channel whose raw category is `"XXX Movies"` is dropped by
`clean_channels` under the no-mapping configurations and under the
fuzzy difflib configuration (where the category normalises to `"Xxx Movies"`,
matching the deny-list term `"XXX"`), but under the substring-mapping
configuration the category is rewritten to `"Movies"` and the channel is
kept. -/
theorem C6_xxx_movies_dropped_except_substring_mapping
    (nm u : List Char) (md : List (List Char × List Char)) :
    clean_channels [⟨nm, "XXX Movies".data, u, md⟩] false false = [] ∧
    clean_channels [⟨nm, "XXX Movies".data, u, md⟩] false true = [] ∧
    clean_channels [⟨nm, "XXX Movies".data, u, md⟩] true true = [] ∧
    clean_channels [⟨nm, "XXX Movies".data, u, md⟩] true false =
      [⟨nm, "Movies".data, u, md⟩] := by
  refine ⟨?_, ?_, ?_, ?_⟩ <;>
    (rw [clean_channels, clean_channelsM_singleton]; dsimp only)
  · rw [show isFiltered (normalize_category "XXX Movies".data false false) = true from by decide]
    rfl
  · rw [show isFiltered (normalize_category "XXX Movies".data false true) = true from by decide]
    rfl
  · rw [show isFiltered (normalize_category "XXX Movies".data true true) = true from by decide]
    rfl
  · rw [show isFiltered (normalize_category "XXX Movies".data true false) = false from by decide]
    rw [show normalize_category "XXX Movies".data true false = "Movies".data from by decide]
    rfl

/-- C6 witness: the amended statement evaluated at a concrete channel. -/
theorem C6_xxx_movies_dropped_except_substring_mapping_witness :
    clean_channels [⟨"A".data, "XXX Movies".data, "http://u".data, []⟩] false false = [] ∧
    clean_channels [⟨"A".data, "XXX Movies".data, "http://u".data, []⟩] false true = [] ∧
    clean_channels [⟨"A".data, "XXX Movies".data, "http://u".data, []⟩] true true = [] ∧
    clean_channels [⟨"A".data, "XXX Movies".data, "http://u".data, []⟩] true false =
      [⟨"A".data, "Movies".data, "http://u".data, []⟩] :=
  C6_xxx_movies_dropped_except_substring_mapping "A".data "http://u".data []

/-! Embedding of `parse_m3u` and `generate_m3u`.  The directive regex
`tvg-name="([^"]*)".*(?:tvg-group="([^"]*)"|group-title="([^"]*)").*` is
embedded operationally: `re.search` takes the leftmost start position at
which the whole pattern matches; the greedy `.*` before the alternation
makes the alternation match at the rightmost possible position, trying
`tvg-group` before `group-title` at each position. -/

/-- Python `str.splitlines()`, accumulator-based; `cur` is the current line
reversed.  A `\r\n` pair counts as a single break; a trailing unterminated
line is emitted.  The fuel drives structural recursion; every recursive call
consumes at least one character, so the initial fuel `length + 1` used by the
wrapper never runs out. -/
def splitlinesFuel : Nat → List Char → List Char → List (List Char)
  | 0, cur, _ => if cur.isEmpty then [] else [cur.reverse]
  | fuel + 1, cur, l =>
    match l with
    | [] => if cur.isEmpty then [] else [cur.reverse]
    | c :: t =>
      if isLineBreak c then
        cur.reverse ::
          (if c = '\r' then
            match t with
            | d :: t2 => if d = '\n' then splitlinesFuel fuel [] t2 else splitlinesFuel fuel [] t
            | [] => splitlinesFuel fuel [] t
          else splitlinesFuel fuel [] t)
      else splitlinesFuel fuel (c :: cur) t

/-- The accumulator loop of `splitlines` at its canonical fuel. -/
def splitlinesGo (cur l : List Char) : List (List Char) :=
  splitlinesFuel (l.length + 1) cur l

/-- Python `str.splitlines()`. -/
def pySplitlines (l : List Char) : List (List Char) := splitlinesGo [] l

/-- The literal `tvg-name="` opening the first capture group. -/
def tvgNameLit : List Char := ("tvg-name=").data ++ ['"']

/-- The literal `tvg-group="` of the first alternative. -/
def tvgGroupLit : List Char := ("tvg-group=").data ++ ['"']

/-- The literal `group-title="` of the second alternative. -/
def groupTitleLit : List Char := ("group-title=").data ++ ['"']

/-- Try to match `tvg-group="([^"]*)"` or `group-title="([^"]*)"` at exactly
this position; `tvg-group` is tried first, and either alternative needs a
closing quote.  Returns the captured value tagged with which alternative
matched (`true` for `tvg-group`). -/
def attrAt (l : List Char) : Option (Bool × List Char) :=
  if tvgGroupLit.isPrefixOf l then
    let rest := l.drop tvgGroupLit.length
    match rest.dropWhile (fun c => c != '"') with
    | '"' :: _ => some (true, rest.takeWhile (fun c => c != '"'))
    | _ => none
  else if groupTitleLit.isPrefixOf l then
    let rest := l.drop groupTitleLit.length
    match rest.dropWhile (fun c => c != '"') with
    | '"' :: _ => some (false, rest.takeWhile (fun c => c != '"'))
    | _ => none
  else none

/-- Backtracking of the greedy `.*`: the alternation matches at the
rightmost position where it can. -/
def searchAttr : List Char → Option (Bool × List Char)
  | [] => none
  | c :: cs =>
    match searchAttr cs with
    | some r => some r
    | none => attrAt (c :: cs)

/-- Continuation of the regex after the literal `tvg-name="`: capture group 1
up to the closing quote, then find the group attribute. -/
def tryAfterName (rest : List Char) : Option (List Char × Option (List Char) × Option (List Char)) :=
  let g1 := rest.takeWhile (fun c => c != '"')
  match rest.dropWhile (fun c => c != '"') with
  | '"' :: rest2 =>
    match searchAttr rest2 with
    | some r => some (g1, if r.1 then (some r.2, none) else (none, some r.2))
    | none => none
  | _ => none

/-- The `re.search` of the directive regex over a line: leftmost start
position at which the whole pattern matches; a failed continuation falls
through to later start positions. -/
def extinfSearch : List Char → Option (List Char × Option (List Char) × Option (List Char))
  | [] => none
  | c :: cs =>
    if tvgNameLit.isPrefixOf (c :: cs) then
      match tryAfterName ((c :: cs).drop tvgNameLit.length) with
      | some r => some r
      | none => extinfSearch cs
    else extinfSearch cs

/-- Python `str.startswith`. -/
def startsWith (pre l : List Char) : Bool := pre.isPrefixOf l

/-- Python `a or b` for a string `a`: `b` when `a` is empty. -/
def pyOr (a b : List Char) : List Char := if a.isEmpty then b else a

/-- Python `a or b` where `a` is an optional capture group: `b` when the
group is missing (`None`) or empty. -/
def pyOrStr (o : Option (List Char)) (b : List Char) : List Char :=
  match o with
  | some v => if v.isEmpty then b else v
  | none => b

/-- The `current_channel` dictionary of `parse_m3u`: which of the keys
`name`, `category`, `url` are present. -/
structure CurChannel where
  name : Option (List Char)
  category : Option (List Char)
  url : Option (List Char)

/-- The line loop of `parse_m3u`.  An `#EXTINF` line whose regex matches
stores name and category (keeping any stale `url` key); a non-comment
non-empty line stores the url and emits a channel when all three keys are
present, resetting the dictionary; all other lines are skipped. -/
def parseGo : List (List Char) → CurChannel → List Channel
  | [], _ => []
  | line0 :: rest, cc =>
    let line := pyStrip line0
    if startsWith ("#EXTINF").data line then
      match extinfSearch line with
      | some (g1, g2, g3) =>
        parseGo rest
          ⟨some (pyOr (pyStrip g1) ("Unknown Channel").data),
           some (pyStrip (pyOrStr g2 (pyOrStr g3 ("Various").data))),
           cc.url⟩
      | none => parseGo rest cc
    else if !line.isEmpty && !startsWith ("#").data line then
      match cc.name, cc.category with
      | some nm, some cat => ⟨nm, cat, pyStrip line, []⟩ :: parseGo rest ⟨none, none, none⟩
      | _, _ => parseGo rest ⟨cc.name, cc.category, some (pyStrip line)⟩
    else parseGo rest cc

/-- The `parse_m3u` function of `src/script.py`. -/
def parse_m3u (content : List Char) : List Channel :=
  parseGo (pySplitlines content) ⟨none, none, none⟩

/-- An `#EXTINF` directive line with a `tvg-group` attribute, as produced by
the f-string of `generate_m3u` (`n` the tvg-name value, `c` the tvg-group
value, `m` the display name after the comma). -/
def extinfLineTvg (n c m : List Char) : List Char :=
  ("#EXTINF:-1 tvg-name=").data ++ '"' :: n ++ '"' ::
    (" tvg-group=").data ++ '"' :: c ++ '"' :: ',' :: m

/-- An `#EXTINF` directive line carrying a `group-title` attribute instead. -/
def extinfLineTitle (n c m : List Char) : List Char :=
  ("#EXTINF:-1 tvg-name=").data ++ '"' :: n ++ '"' ::
    (" group-title=").data ++ '"' :: c ++ '"' :: ',' :: m

/-- The two output lines of `generate_m3u` for one channel. -/
def channelLines (ch : Channel) : List Char :=
  extinfLineTvg ch.name ch.category ch.name ++ '\n' :: ch.url ++ ['\n']

/-- The `generate_m3u` function of `src/script.py`. -/
def generate_m3u (channels : List Channel) : List Char :=
  ("#EXTM3U").data ++ '\n' :: (channels.map channelLines).flatten

theorem beq_false_of_ne {a b : Char} (h : a ≠ b) : (a == b) = false := by
  simpa using h

theorem mem_of_isPrefixOf {p l : List Char} {x : Char} (h : p.isPrefixOf l = true)
    (hx : x ∈ p) : x ∈ l := by
  rw [List.isPrefixOf_iff_prefix] at h
  exact h.sublist.subset hx

theorem isPrefixOf_quote : ∀ (p u : List Char), '"' ∉ p → '"' ∉ u → ∀ rest : List Char,
    ((p ++ ['"']).isPrefixOf (u ++ '"' :: rest) = true ↔ u = p) := by
  intro p
  induction p with
  | nil =>
    intro u hp hu rest
    cases u with
    | nil => simp [List.isPrefixOf]
    | cons x u2 =>
      have hx : ('"' == x) = false :=
        beq_false_of_ne fun h => hu (by rw [← h]; exact List.mem_cons_self _ _)
      simp [List.isPrefixOf, hx]
  | cons a p2 ih =>
    intro u hp hu rest
    have ha : a ≠ '"' := fun h => hp (h ▸ List.mem_cons_self a p2)
    cases u with
    | nil =>
      have hx : (a == '"') = false := beq_false_of_ne ha
      simp [List.isPrefixOf, hx]
    | cons x u2 =>
      by_cases hax : a = x
      · subst hax
        have := ih u2 (fun h => hp (List.mem_cons_of_mem a h))
          (fun h => hu (List.mem_cons_of_mem a h)) rest
        simp [List.isPrefixOf, this]
      · have hx : (a == x) = false := beq_false_of_ne hax
        simp [List.isPrefixOf, hx]
        intro h
        exact absurd h.symm hax

theorem attrAt_none_of_no_quote {l : List Char} (h : '"' ∉ l) : attrAt l = none := by
  have h1 : tvgGroupLit.isPrefixOf l = false := by
    by_contra hb
    have hb2 : tvgGroupLit.isPrefixOf l = true := by
      cases hx : tvgGroupLit.isPrefixOf l with
      | true => rfl
      | false => exact absurd hx hb
    exact h (mem_of_isPrefixOf hb2 (by decide))
  have h2 : groupTitleLit.isPrefixOf l = false := by
    by_contra hb
    have hb2 : groupTitleLit.isPrefixOf l = true := by
      cases hx : groupTitleLit.isPrefixOf l with
      | true => rfl
      | false => exact absurd hx hb
    exact h (mem_of_isPrefixOf hb2 (by decide))
  rw [attrAt, if_neg (by simp [h1]), if_neg (by simp [h2])]

theorem dropWhile_ne_quote_of_no_quote {l : List Char} (h : '"' ∉ l) :
    l.dropWhile (fun c => c != '"') = [] := by
  induction l with
  | nil => rfl
  | cons c cs ih =>
    have hc : c ≠ '"' := fun he => h (he ▸ List.mem_cons_self c cs)
    rw [List.dropWhile_cons_of_pos (by simp [hc])]
    exact ih fun hx => h (List.mem_cons_of_mem c hx)

theorem all_ne_quote {u : List Char} (h : '"' ∉ u) : ∀ a ∈ u, (a != '"') = true := by
  intro a ha
  have hne : a ≠ '"' := fun he => h (he ▸ ha)
  simp [hne]

theorem takeWhile_ne_quote_append {u : List Char} (h : '"' ∉ u) (rest : List Char) :
    (u ++ '"' :: rest).takeWhile (fun c => c != '"') = u := by
  rw [List.takeWhile_append_of_pos (all_ne_quote h)]
  rw [List.takeWhile_cons_of_neg (by simp)]
  exact List.append_nil u

theorem dropWhile_ne_quote_append {u : List Char} (h : '"' ∉ u) (rest : List Char) :
    (u ++ '"' :: rest).dropWhile (fun c => c != '"') = '"' :: rest := by
  rw [List.dropWhile_append_of_pos (all_ne_quote h)]
  rw [List.dropWhile_cons_of_neg (by simp)]

theorem attrAt_one_quote {u w : List Char} (hu : '"' ∉ u) (hw : '"' ∉ w) :
    attrAt (u ++ '"' :: w) = none := by
  by_cases h1 : tvgGroupLit.isPrefixOf (u ++ '"' :: w) = true
  · have hu10 : u = ("tvg-group=").data := by
      have := (isPrefixOf_quote ("tvg-group=").data u (by decide) hu w).mp h1
      exact this
    subst hu10
    rw [attrAt, if_pos h1]
    have hdrop : (("tvg-group=").data ++ '"' :: w).drop tvgGroupLit.length = w := by
      show ((("tvg-group=").data ++ ['"']) ++ w).drop tvgGroupLit.length = w
      rw [show (("tvg-group=").data ++ ['"']) = tvgGroupLit from rfl, List.drop_left]
    rw [hdrop]
    simp only [dropWhile_ne_quote_of_no_quote hw]
  · by_cases h2 : groupTitleLit.isPrefixOf (u ++ '"' :: w) = true
    · have hu12 : u = ("group-title=").data := by
        have := (isPrefixOf_quote ("group-title=").data u (by decide) hu w).mp h2
        exact this
      subst hu12
      rw [attrAt, if_neg h1, if_pos h2]
      have hdrop : (("group-title=").data ++ '"' :: w).drop groupTitleLit.length = w := by
        show ((("group-title=").data ++ ['"']) ++ w).drop groupTitleLit.length = w
        rw [show (("group-title=").data ++ ['"']) = groupTitleLit from rfl, List.drop_left]
      rw [hdrop]
      simp only [dropWhile_ne_quote_of_no_quote hw]
    · rw [attrAt, if_neg h1, if_neg h2]

theorem searchAttr_cons (c : Char) (cs : List Char) :
    searchAttr (c :: cs) =
      match searchAttr cs with
      | some r => some r
      | none => attrAt (c :: cs) := rfl

theorem searchAttr_cons_none {c : Char} {cs : List Char} (h1 : searchAttr cs = none)
    (h2 : attrAt (c :: cs) = none) : searchAttr (c :: cs) = none := by
  rw [searchAttr_cons, h1, h2]

theorem searchAttr_cons_of_tail_none {c : Char} {cs : List Char} (h1 : searchAttr cs = none) :
    searchAttr (c :: cs) = attrAt (c :: cs) := by
  rw [searchAttr_cons, h1]

theorem searchAttr_none_of_no_quote {w : List Char} (h : '"' ∉ w) : searchAttr w = none := by
  induction w with
  | nil => rfl
  | cons c cs ih =>
    exact searchAttr_cons_none (ih fun hx => h (List.mem_cons_of_mem c hx))
      (attrAt_none_of_no_quote h)

theorem searchAttr_none_one_quote : ∀ (u : List Char), '"' ∉ u → ∀ {w : List Char}, '"' ∉ w →
    searchAttr (u ++ '"' :: w) = none := by
  intro u
  induction u with
  | nil =>
    intro _ w hw
    refine searchAttr_cons_none (searchAttr_none_of_no_quote hw) ?_
    rw [attrAt]
    rw [if_neg (by simp [show tvgGroupLit.isPrefixOf ('"' :: w) = false from rfl])]
    rw [if_neg (by simp [show groupTitleLit.isPrefixOf ('"' :: w) = false from rfl])]
  | cons x u2 ih =>
    intro hu w hw
    have hx : '"' ∉ u2 := fun h => hu (List.mem_cons_of_mem x h)
    show searchAttr (x :: (u2 ++ '"' :: w)) = none
    exact searchAttr_cons_none (ih hx hw) (attrAt_one_quote hu hw)

theorem attrAt_at_tvgGroup {v : List Char} (w : List Char) (hv : '"' ∉ v) :
    attrAt (tvgGroupLit ++ (v ++ '"' :: w)) = some (true, v) := by
  rw [attrAt, if_pos (by
    rw [List.isPrefixOf_iff_prefix]
    exact List.prefix_append _ _)]
  rw [List.drop_left]
  simp only [dropWhile_ne_quote_append hv, takeWhile_ne_quote_append hv]

theorem attrAt_at_groupTitle {v : List Char} (w : List Char) (hv : '"' ∉ v) :
    attrAt (groupTitleLit ++ (v ++ '"' :: w)) = some (false, v) := by
  have hng : tvgGroupLit.isPrefixOf (groupTitleLit ++ (v ++ '"' :: w)) = false := rfl
  rw [attrAt, if_neg (by simp [hng]), if_pos (by
    rw [List.isPrefixOf_iff_prefix]
    exact List.prefix_append _ _)]
  rw [List.drop_left]
  simp only [dropWhile_ne_quote_append hv, takeWhile_ne_quote_append hv]

theorem searchAttr_canonical_tvg (c m : List Char) (hc : '"' ∉ c) (hm : '"' ∉ m) :
    searchAttr (tvgGroupLit ++ (c ++ '"' :: ',' :: m)) = some (true, c) := by
  have hw : '"' ∉ ',' :: m := by simp [hm]
  have hB : searchAttr (c ++ '"' :: ',' :: m) = none := searchAttr_none_one_quote c hc hw
  have h10 : searchAttr ('"' :: (c ++ '"' :: ',' :: m)) = none :=
    searchAttr_cons_none hB rfl
  have h9 : searchAttr ('=' :: '"' :: (c ++ '"' :: ',' :: m)) = none :=
    searchAttr_cons_none h10 rfl
  have h8 : searchAttr ('p' :: '=' :: '"' :: (c ++ '"' :: ',' :: m)) = none :=
    searchAttr_cons_none h9 rfl
  have h7 : searchAttr ('u' :: 'p' :: '=' :: '"' :: (c ++ '"' :: ',' :: m)) = none :=
    searchAttr_cons_none h8 rfl
  have h6 : searchAttr ('o' :: 'u' :: 'p' :: '=' :: '"' :: (c ++ '"' :: ',' :: m)) = none :=
    searchAttr_cons_none h7 rfl
  have h5 : searchAttr ('r' :: 'o' :: 'u' :: 'p' :: '=' :: '"' :: (c ++ '"' :: ',' :: m)) =
      none := searchAttr_cons_none h6 rfl
  have h4 : searchAttr ('g' :: 'r' :: 'o' :: 'u' :: 'p' :: '=' :: '"' ::
      (c ++ '"' :: ',' :: m)) = none := searchAttr_cons_none h5 rfl
  have h3 : searchAttr ('-' :: 'g' :: 'r' :: 'o' :: 'u' :: 'p' :: '=' :: '"' ::
      (c ++ '"' :: ',' :: m)) = none := searchAttr_cons_none h4 rfl
  have h2 : searchAttr ('g' :: '-' :: 'g' :: 'r' :: 'o' :: 'u' :: 'p' :: '=' :: '"' ::
      (c ++ '"' :: ',' :: m)) = none := searchAttr_cons_none h3 rfl
  have h1 : searchAttr ('v' :: 'g' :: '-' :: 'g' :: 'r' :: 'o' :: 'u' :: 'p' :: '=' :: '"' ::
      (c ++ '"' :: ',' :: m)) = none := searchAttr_cons_none h2 rfl
  show searchAttr ('t' :: 'v' :: 'g' :: '-' :: 'g' :: 'r' :: 'o' :: 'u' :: 'p' :: '=' :: '"' ::
      (c ++ '"' :: ',' :: m)) = some (true, c)
  rw [searchAttr_cons_of_tail_none h1]
  exact attrAt_at_tvgGroup (',' :: m) hc

theorem searchAttr_canonical_title (c m : List Char) (hc : '"' ∉ c) (hm : '"' ∉ m) :
    searchAttr (groupTitleLit ++ (c ++ '"' :: ',' :: m)) = some (false, c) := by
  have hw : '"' ∉ ',' :: m := by simp [hm]
  have hB : searchAttr (c ++ '"' :: ',' :: m) = none := searchAttr_none_one_quote c hc hw
  have h12 : searchAttr ('"' :: (c ++ '"' :: ',' :: m)) = none :=
    searchAttr_cons_none hB rfl
  have h11 : searchAttr ('=' :: '"' :: (c ++ '"' :: ',' :: m)) = none :=
    searchAttr_cons_none h12 rfl
  have h10 : searchAttr ('e' :: '=' :: '"' :: (c ++ '"' :: ',' :: m)) = none :=
    searchAttr_cons_none h11 rfl
  have h9 : searchAttr ('l' :: 'e' :: '=' :: '"' :: (c ++ '"' :: ',' :: m)) = none :=
    searchAttr_cons_none h10 rfl
  have h8 : searchAttr ('t' :: 'l' :: 'e' :: '=' :: '"' :: (c ++ '"' :: ',' :: m)) = none :=
    searchAttr_cons_none h9 rfl
  have h7 : searchAttr ('i' :: 't' :: 'l' :: 'e' :: '=' :: '"' :: (c ++ '"' :: ',' :: m)) =
      none := searchAttr_cons_none h8 rfl
  have h6 : searchAttr ('t' :: 'i' :: 't' :: 'l' :: 'e' :: '=' :: '"' ::
      (c ++ '"' :: ',' :: m)) = none := searchAttr_cons_none h7 rfl
  have h5 : searchAttr ('-' :: 't' :: 'i' :: 't' :: 'l' :: 'e' :: '=' :: '"' ::
      (c ++ '"' :: ',' :: m)) = none := searchAttr_cons_none h6 rfl
  have h4 : searchAttr ('p' :: '-' :: 't' :: 'i' :: 't' :: 'l' :: 'e' :: '=' :: '"' ::
      (c ++ '"' :: ',' :: m)) = none := searchAttr_cons_none h5 rfl
  have h3 : searchAttr ('u' :: 'p' :: '-' :: 't' :: 'i' :: 't' :: 'l' :: 'e' :: '=' :: '"' ::
      (c ++ '"' :: ',' :: m)) = none := searchAttr_cons_none h4 rfl
  have h2 : searchAttr ('o' :: 'u' :: 'p' :: '-' :: 't' :: 'i' :: 't' :: 'l' :: 'e' :: '=' ::
      '"' :: (c ++ '"' :: ',' :: m)) = none := searchAttr_cons_none h3 rfl
  have h1 : searchAttr ('r' :: 'o' :: 'u' :: 'p' :: '-' :: 't' :: 'i' :: 't' :: 'l' :: 'e' ::
      '=' :: '"' :: (c ++ '"' :: ',' :: m)) = none := searchAttr_cons_none h2 rfl
  show searchAttr ('g' :: 'r' :: 'o' :: 'u' :: 'p' :: '-' :: 't' :: 'i' :: 't' :: 'l' :: 'e' ::
      '=' :: '"' :: (c ++ '"' :: ',' :: m)) = some (false, c)
  rw [searchAttr_cons_of_tail_none h1]
  exact attrAt_at_groupTitle (',' :: m) hc

theorem splitlinesGo_nil (cur : List Char) :
    splitlinesGo cur [] = if cur.isEmpty then [] else [cur.reverse] := rfl

theorem splitlinesGo_break {c : Char} (hc : isLineBreak c = true) (hr : c ≠ '\r')
    (cur t : List Char) : splitlinesGo cur (c :: t) = cur.reverse :: splitlinesGo [] t := by
  show (if isLineBreak c then
      cur.reverse ::
        (if c = '\r' then
          match t with
          | d :: t2 =>
            if d = '\n' then splitlinesFuel (t.length + 1) [] t2 else splitlinesFuel (t.length + 1) [] t
          | [] => splitlinesFuel (t.length + 1) [] t
        else splitlinesFuel (t.length + 1) [] t)
    else splitlinesFuel (t.length + 1) (c :: cur) t) = cur.reverse :: splitlinesGo [] t
  rw [if_pos hc, if_neg hr]
  rfl

theorem splitlinesGo_elem {c : Char} (hc : isLineBreak c = false) (cur t : List Char) :
    splitlinesGo cur (c :: t) = splitlinesGo (c :: cur) t := by
  show (if isLineBreak c then
      cur.reverse ::
        (if c = '\r' then
          match t with
          | d :: t2 =>
            if d = '\n' then splitlinesFuel (t.length + 1) [] t2 else splitlinesFuel (t.length + 1) [] t
          | [] => splitlinesFuel (t.length + 1) [] t
        else splitlinesFuel (t.length + 1) [] t)
    else splitlinesFuel (t.length + 1) (c :: cur) t) = splitlinesGo (c :: cur) t
  rw [if_neg (by simp [hc])]
  rfl

theorem splitlinesGo_line : ∀ (a : List Char), (∀ x ∈ a, isLineBreak x = false) →
    ∀ (cur rest : List Char),
      splitlinesGo cur (a ++ '\n' :: rest) = (cur.reverse ++ a) :: splitlinesGo [] rest := by
  intro a
  induction a with
  | nil =>
    intro _ cur rest
    rw [List.nil_append, splitlinesGo_break (by decide) (by decide), List.append_nil]
  | cons d a2 ih =>
    intro ha cur rest
    rw [List.cons_append, splitlinesGo_elem (ha d (List.mem_cons_self d a2))]
    rw [ih (fun x hx => ha x (List.mem_cons_of_mem d hx)) (d :: cur) rest]
    simp

theorem pySplitlines_line (a : List Char) (ha : ∀ x ∈ a, isLineBreak x = false)
    (rest : List Char) : pySplitlines (a ++ '\n' :: rest) = a :: pySplitlines rest := by
  rw [pySplitlines, splitlinesGo_line a ha [] rest]
  rfl

theorem dropWhile_eq_self_of_head2 {p : Char → Bool} {l : List Char}
    (h : ∀ c, l.head? = some c → p c = false) : l.dropWhile p = l := by
  match l with
  | [] => rfl
  | c :: t => exact List.dropWhile_cons_of_neg (by simp [h c rfl])

theorem pyStrip_eq_self_head_last {l : List Char}
    (h1 : ∀ c, l.head? = some c → isPyWs c = false)
    (h2 : ∀ c, l.getLast? = some c → isPyWs c = false) : pyStrip l = l := by
  rw [pyStrip, dropWhile_eq_self_of_head2 h1, dropWhile_eq_self_of_head2 ?hr]
  · exact List.reverse_reverse l
  case hr =>
    intro c hc
    rw [List.head?_reverse] at hc
    exact h2 c hc

theorem head_not_ws_of_pyStrip_eq {l : List Char} (h : pyStrip l = l) :
    ∀ c, l.head? = some c → isPyWs c = false := by
  intro c hc
  match l, hc with
  | c :: t, hc =>
    cases hc
    by_contra hb
    have hcw : isPyWs c = true := by
      cases hx : isPyWs c with
      | true => rfl
      | false => exact absurd hx hb
    have hlen : (pyStrip (c :: t)).length < (c :: t).length := by
      rw [pyStrip]
      rw [List.dropWhile_cons_of_pos hcw]
      have s1 : List.Sublist ((t.dropWhile isPyWs).reverse.dropWhile isPyWs)
          (t.dropWhile isPyWs).reverse := List.dropWhile_sublist _
      have s2 : List.Sublist (t.dropWhile isPyWs) t := List.dropWhile_sublist _
      have l1 := s1.length_le
      have l2 := s2.length_le
      simp only [List.length_reverse, List.length_cons] at l1 l2 ⊢
      omega
    rw [h] at hlen
    exact absurd hlen (Nat.lt_irrefl _)

theorem last_not_ws_of_pyStrip_eq {l : List Char} (h : pyStrip l = l) :
    ∀ c, l.getLast? = some c → isPyWs c = false := by
  intro c hc
  have hg : l.getLast? = ((l.dropWhile isPyWs).reverse.dropWhile isPyWs).head? := by
    conv_lhs => rw [← h]
    rw [pyStrip]
    rw [show ∀ x : List Char, x.reverse.getLast? = x.head? from ?_]
    · intro x
      rw [← List.head?_reverse, List.reverse_reverse]
  rw [hg] at hc
  match hd : (l.dropWhile isPyWs).reverse.dropWhile isPyWs, hc with
  | c2 :: t2, hc =>
    cases hc
    exact dropWhile_head_false _ hd

theorem getLast?_append_right {a b : List Char} (hb : b ≠ []) :
    (a ++ b).getLast? = b.getLast? := by
  rw [List.getLast?_append]
  match hx : b.getLast? with
  | some v => rfl
  | none =>
    rw [List.getLast?_eq_none_iff] at hx
    exact absurd hx hb

theorem getLast?_cons_of_ne_nil {x : Char} {l : List Char} (h : l ≠ []) :
    (x :: l).getLast? = l.getLast? := by
  match l, h with
  | c :: t, _ => exact List.getLast?_cons_cons

theorem getLast?_extinfLine (n c m : List Char) :
    (extinfLineTvg n c m).getLast? = (',' :: m).getLast? := by
  rw [extinfLineTvg]
  repeat' first
    | rw [getLast?_append_right (by simp)]
    | rw [getLast?_cons_of_ne_nil (by simp)]

theorem extinfSearch_skip {c0 : Char} {cs : List Char}
    (h : tvgNameLit.isPrefixOf (c0 :: cs) = false) :
    extinfSearch (c0 :: cs) = extinfSearch cs := by
  rw [extinfSearch, if_neg (by simp [h])]

theorem extinfSearch_at {c0 : Char} {cs : List Char}
    {r : List Char × Option (List Char) × Option (List Char)}
    (hpre : tvgNameLit.isPrefixOf (c0 :: cs) = true)
    (h : tryAfterName ((c0 :: cs).drop tvgNameLit.length) = some r) :
    extinfSearch (c0 :: cs) = some r := by
  rw [extinfSearch, if_pos hpre, h]

theorem tryAfterName_canonical {n : List Char} (hn : '"' ∉ n) {rest2 : List Char}
    {br : Bool × List Char} (hsr : searchAttr rest2 = some br) :
    tryAfterName (n ++ '"' :: rest2) =
      some (n, if br.1 then (some br.2, none) else (none, some br.2)) := by
  simp only [tryAfterName, takeWhile_ne_quote_append hn, dropWhile_ne_quote_append hn]
  rw [hsr]

theorem extinfLine_decomp_tvg (n c m : List Char) : extinfLineTvg n c m =
    '#' :: 'E' :: 'X' :: 'T' :: 'I' :: 'N' :: 'F' :: ':' :: '-' :: '1' ::
    ' ' :: ('t' :: 'v' :: 'g' :: '-' :: 'n' :: 'a' :: 'm' :: 'e' :: '=' :: '"' ::
      (n ++ '"' :: ' ' :: (tvgGroupLit ++ (c ++ '"' :: ',' :: m)))) := by
  simp [extinfLineTvg, tvgGroupLit]

theorem extinfLine_decomp_title (n c m : List Char) : extinfLineTitle n c m =
    '#' :: 'E' :: 'X' :: 'T' :: 'I' :: 'N' :: 'F' :: ':' :: '-' :: '1' ::
    ' ' :: ('t' :: 'v' :: 'g' :: '-' :: 'n' :: 'a' :: 'm' :: 'e' :: '=' :: '"' ::
      (n ++ '"' :: ' ' :: (groupTitleLit ++ (c ++ '"' :: ',' :: m)))) := by
  simp [extinfLineTitle, groupTitleLit]

theorem extinfSearch_skip11 (X : List Char) :
    extinfSearch ('#' :: 'E' :: 'X' :: 'T' :: 'I' :: 'N' :: 'F' :: ':' :: '-' :: '1' ::
      ' ' :: X) = extinfSearch X := by
  rw [extinfSearch_skip (show tvgNameLit.isPrefixOf
    ('#' :: 'E' :: 'X' :: 'T' :: 'I' :: 'N' :: 'F' :: ':' :: '-' :: '1' :: ' ' :: X) = false
    from rfl)]
  rw [extinfSearch_skip (show tvgNameLit.isPrefixOf
    ('E' :: 'X' :: 'T' :: 'I' :: 'N' :: 'F' :: ':' :: '-' :: '1' :: ' ' :: X) = false
    from rfl)]
  rw [extinfSearch_skip (show tvgNameLit.isPrefixOf
    ('X' :: 'T' :: 'I' :: 'N' :: 'F' :: ':' :: '-' :: '1' :: ' ' :: X) = false from rfl)]
  rw [extinfSearch_skip (show tvgNameLit.isPrefixOf
    ('T' :: 'I' :: 'N' :: 'F' :: ':' :: '-' :: '1' :: ' ' :: X) = false from rfl)]
  rw [extinfSearch_skip (show tvgNameLit.isPrefixOf
    ('I' :: 'N' :: 'F' :: ':' :: '-' :: '1' :: ' ' :: X) = false from rfl)]
  rw [extinfSearch_skip (show tvgNameLit.isPrefixOf
    ('N' :: 'F' :: ':' :: '-' :: '1' :: ' ' :: X) = false from rfl)]
  rw [extinfSearch_skip (show tvgNameLit.isPrefixOf
    ('F' :: ':' :: '-' :: '1' :: ' ' :: X) = false from rfl)]
  rw [extinfSearch_skip (show tvgNameLit.isPrefixOf
    (':' :: '-' :: '1' :: ' ' :: X) = false from rfl)]
  rw [extinfSearch_skip (show tvgNameLit.isPrefixOf
    ('-' :: '1' :: ' ' :: X) = false from rfl)]
  rw [extinfSearch_skip (show tvgNameLit.isPrefixOf
    ('1' :: ' ' :: X) = false from rfl)]
  rw [extinfSearch_skip (show tvgNameLit.isPrefixOf (' ' :: X) = false from rfl)]

theorem extinfSearch_line_tvg (n c m : List Char) (hn : '"' ∉ n) (hc : '"' ∉ c)
    (hm : '"' ∉ m) :
    extinfSearch (extinfLineTvg n c m) = some (n, some c, none) := by
  rw [extinfLine_decomp_tvg, extinfSearch_skip11]
  apply extinfSearch_at
  · rw [List.isPrefixOf_iff_prefix]
    exact List.prefix_append tvgNameLit (n ++ '"' :: ' ' :: (tvgGroupLit ++ (c ++ '"' :: ',' :: m)))
  · show tryAfterName (n ++ '"' :: (' ' :: (tvgGroupLit ++ (c ++ '"' :: ',' :: m)))) = _
    have hsr : searchAttr (' ' :: (tvgGroupLit ++ (c ++ '"' :: ',' :: m))) = some (true, c) := by
      rw [searchAttr_cons, searchAttr_canonical_tvg c m hc hm]
    rw [tryAfterName_canonical hn hsr]
    rfl

theorem extinfSearch_line_title (n c m : List Char) (hn : '"' ∉ n) (hc : '"' ∉ c)
    (hm : '"' ∉ m) :
    extinfSearch (extinfLineTitle n c m) = some (n, none, some c) := by
  rw [extinfLine_decomp_title, extinfSearch_skip11]
  apply extinfSearch_at
  · rw [List.isPrefixOf_iff_prefix]
    exact List.prefix_append tvgNameLit
      (n ++ '"' :: ' ' :: (groupTitleLit ++ (c ++ '"' :: ',' :: m)))
  · show tryAfterName (n ++ '"' :: (' ' :: (groupTitleLit ++ (c ++ '"' :: ',' :: m)))) = _
    have hsr : searchAttr (' ' :: (groupTitleLit ++ (c ++ '"' :: ',' :: m))) = some (false, c) := by
      rw [searchAttr_cons, searchAttr_canonical_title c m hc hm]
    rw [tryAfterName_canonical hn hsr]
    rfl

theorem parseGo_cons_eq (line0 : List Char) (rest : List (List Char)) (cc : CurChannel) :
    parseGo (line0 :: rest) cc =
      (let line := pyStrip line0
       if startsWith ("#EXTINF").data line then
         match extinfSearch line with
         | some (g1, g2, g3) =>
           parseGo rest
             ⟨some (pyOr (pyStrip g1) ("Unknown Channel").data),
              some (pyStrip (pyOrStr g2 (pyOrStr g3 ("Various").data))),
              cc.url⟩
         | none => parseGo rest cc
       else if !line.isEmpty && !startsWith ("#").data line then
         match cc.name, cc.category with
         | some nm, some cat => ⟨nm, cat, pyStrip line, []⟩ :: parseGo rest ⟨none, none, none⟩
         | _, _ => parseGo rest ⟨cc.name, cc.category, some (pyStrip line)⟩
       else parseGo rest cc) := rfl

theorem parseGo_extinf_tvg {n c m : List Char} (rest : List (List Char)) (cc : CurChannel)
    (hn : '"' ∉ n) (hc : '"' ∉ c) (hm : '"' ∉ m)
    (hstrip : pyStrip (extinfLineTvg n c m) = extinfLineTvg n c m) :
    parseGo (extinfLineTvg n c m :: rest) cc =
      parseGo rest
        ⟨some (pyOr (pyStrip n) ("Unknown Channel").data),
         some (pyStrip (pyOrStr (some c) (pyOrStr none ("Various").data))),
         cc.url⟩ := by
  rw [parseGo_cons_eq]
  simp only [hstrip]
  rw [if_pos (show startsWith ("#EXTINF").data (extinfLineTvg n c m) = true by
    rw [extinfLine_decomp_tvg]; rfl)]
  rw [extinfSearch_line_tvg n c m hn hc hm]

theorem parseGo_extinf_title {n c m : List Char} (rest : List (List Char)) (cc : CurChannel)
    (hn : '"' ∉ n) (hc : '"' ∉ c) (hm : '"' ∉ m)
    (hstrip : pyStrip (extinfLineTitle n c m) = extinfLineTitle n c m) :
    parseGo (extinfLineTitle n c m :: rest) cc =
      parseGo rest
        ⟨some (pyOr (pyStrip n) ("Unknown Channel").data),
         some (pyStrip (pyOrStr none (pyOrStr (some c) ("Various").data))),
         cc.url⟩ := by
  rw [parseGo_cons_eq]
  simp only [hstrip]
  rw [if_pos (show startsWith ("#EXTINF").data (extinfLineTitle n c m) = true by
    rw [extinfLine_decomp_title]; rfl)]
  rw [extinfSearch_line_title n c m hn hc hm]

theorem startsWith_hash_false {u : List Char} (hh : u.head? ≠ some '#') :
    startsWith ("#").data u = false := by
  match u with
  | [] => rfl
  | c :: t =>
    have hc : c ≠ '#' := fun he => hh (by rw [he]; rfl)
    show (('#' == c) && ([] : List Char).isPrefixOf t) = false
    rw [beq_false_of_ne (Ne.symm hc), Bool.false_and]

theorem startsWith_extinf_false {u : List Char} (hh : u.head? ≠ some '#') :
    startsWith ("#EXTINF").data u = false := by
  match u with
  | [] => rfl
  | c :: t =>
    have hc : c ≠ '#' := fun he => hh (by rw [he]; rfl)
    show (('#' == c) && (("EXTINF").data.isPrefixOf t)) = false
    rw [beq_false_of_ne (Ne.symm hc), Bool.false_and]

theorem parseGo_url_complete {u : List Char} (rest : List (List Char))
    (nm cat : List Char) (uOld : Option (List Char))
    (hstrip : pyStrip u = u) (hne : u ≠ []) (hh : u.head? ≠ some '#') :
    parseGo (u :: rest) ⟨some nm, some cat, uOld⟩ =
      ⟨nm, cat, u, []⟩ :: parseGo rest ⟨none, none, none⟩ := by
  rw [parseGo_cons_eq]
  simp only [hstrip]
  rw [if_neg (by simp [startsWith_extinf_false hh])]
  rw [if_pos (by
    simp only [startsWith_hash_false hh, Bool.not_false, Bool.and_true,
      Bool.not_eq_true']
    simp [List.isEmpty_iff, hne])]

theorem parseGo_header (rest : List (List Char)) (cc : CurChannel) :
    parseGo (("#EXTM3U").data :: rest) cc = parseGo rest cc := rfl

/-- Hypotheses under which a channel survives the serialize/parse round trip:
no quotes or line breaks in name and category, both nonempty and free of
surrounding whitespace; url nonempty, break-free, whitespace-trimmed and not
starting with `#`; and empty metadata. -/
def ChannelOk (ch : Channel) : Prop :=
  ch.name ≠ [] ∧ pyStrip ch.name = ch.name ∧ '"' ∉ ch.name ∧
    (∀ x ∈ ch.name, isLineBreak x = false) ∧
  ch.category ≠ [] ∧ pyStrip ch.category = ch.category ∧ '"' ∉ ch.category ∧
    (∀ x ∈ ch.category, isLineBreak x = false) ∧
  ch.url ≠ [] ∧ pyStrip ch.url = ch.url ∧ (∀ x ∈ ch.url, isLineBreak x = false) ∧
    ch.url.head? ≠ some '#' ∧
  ch.metadata = []

instance (ch : Channel) : Decidable (ChannelOk ch) := by
  unfold ChannelOk
  infer_instance

theorem no_break_append {a b : List Char} (ha : ∀ x ∈ a, isLineBreak x = false)
    (hb : ∀ x ∈ b, isLineBreak x = false) : ∀ x ∈ a ++ b, isLineBreak x = false := by
  intro x hx
  rcases List.mem_append.mp hx with h | h
  · exact ha x h
  · exact hb x h

theorem no_break_cons {c : Char} {b : List Char} (hc : isLineBreak c = false)
    (hb : ∀ x ∈ b, isLineBreak x = false) : ∀ x ∈ c :: b, isLineBreak x = false := by
  intro x hx
  rcases List.mem_cons.mp hx with h | h
  · rw [h]; exact hc
  · exact hb x h

theorem extinfLine_no_break {n c m : List Char}
    (hn : ∀ x ∈ n, isLineBreak x = false) (hc : ∀ x ∈ c, isLineBreak x = false)
    (hm : ∀ x ∈ m, isLineBreak x = false) :
    ∀ x ∈ extinfLineTvg n c m, isLineBreak x = false := by
  rw [extinfLineTvg]
  refine no_break_append (no_break_append (no_break_append (no_break_append (by decide)
    (no_break_cons (by decide) hn)) (no_break_cons (by decide) (by decide)))
    (no_break_cons (by decide) hc))
    (no_break_cons (by decide) (no_break_cons (by decide) hm))

theorem channelLines_append (ch : Channel) (X : List Char) :
    channelLines ch ++ X =
      extinfLineTvg ch.name ch.category ch.name ++ ('\n' :: (ch.url ++ ('\n' :: X))) := by
  simp [channelLines, List.append_assoc]

theorem pyStrip_extinfLine_self {n c : List Char} (hn1 : n ≠ [])
    (hn2 : pyStrip n = n) :
    pyStrip (extinfLineTvg n c n) = extinfLineTvg n c n := by
  apply pyStrip_eq_self_head_last
  · intro x hx
    have hh : (extinfLineTvg n c n).head? = some '#' := by
      rw [extinfLine_decomp_tvg]
      rfl
    rw [hh] at hx
    cases hx
    decide
  · intro x hx
    rw [getLast?_extinfLine, getLast?_cons_of_ne_nil hn1] at hx
    exact last_not_ws_of_pyStrip_eq hn2 x hx

theorem parseGo_channels : ∀ chans : List Channel, (∀ ch ∈ chans, ChannelOk ch) →
    ∀ cc : CurChannel,
      parseGo ((chans.map fun ch =>
        [extinfLineTvg ch.name ch.category ch.name, ch.url]).flatten) cc = chans := by
  intro chans
  induction chans with
  | nil => intro _ cc; rfl
  | cons ch rest ih =>
    intro h cc
    obtain ⟨hn1, hn2, hn3, _hn4, hc1, hc2, hc3, _hc4, hu1, hu2, _hu3, hu4, hmeta⟩ :=
      h ch (List.mem_cons_self ch rest)
    rw [List.map_cons, List.flatten_cons]
    show parseGo (extinfLineTvg ch.name ch.category ch.name :: ch.url ::
      (rest.map fun ch => [extinfLineTvg ch.name ch.category ch.name, ch.url]).flatten) cc = _
    rw [parseGo_extinf_tvg _ cc hn3 hc3 hn3 (pyStrip_extinfLine_self hn1 hn2)]
    rw [parseGo_url_complete _ _ _ _ hu2 hu1 hu4]
    have e1 : pyOr (pyStrip ch.name) ("Unknown Channel").data = ch.name := by
      rw [hn2, pyOr, if_neg (by simp [List.isEmpty_iff, hn1])]
    have e2 : pyStrip (pyOrStr (some ch.category) (pyOrStr none ("Various").data)) =
        ch.category := by
      show pyStrip (if ch.category.isEmpty then pyOrStr none ("Various").data
        else ch.category) = _
      rw [if_neg (by simp [List.isEmpty_iff, hc1])]
      exact hc2
    rw [e1, e2, ih (fun x hx => h x (List.mem_cons_of_mem ch hx))]
    have he : (⟨ch.name, ch.category, ch.url, []⟩ : Channel) = ch := by
      rw [← hmeta]
    rw [he]

theorem splitlines_channels : ∀ chans : List Channel, (∀ ch ∈ chans, ChannelOk ch) →
    pySplitlines ((chans.map channelLines).flatten) =
      (chans.map fun ch => [extinfLineTvg ch.name ch.category ch.name, ch.url]).flatten := by
  intro chans
  induction chans with
  | nil => intro _; rfl
  | cons ch rest ih =>
    intro h
    obtain ⟨_hn1, _hn2, _hn3, hn4, _hc1, _hc2, _hc3, hc4, _hu1, _hu2, hu3, _hu4, _hmeta⟩ :=
      h ch (List.mem_cons_self ch rest)
    rw [List.map_cons, List.flatten_cons, channelLines_append]
    rw [pySplitlines_line _ (extinfLine_no_break hn4 hc4 hn4)]
    rw [pySplitlines_line _ hu3]
    rw [ih fun x hx => h x (List.mem_cons_of_mem ch hx)]
    rfl

/-- C2 counterexample: round-trip fails for a channel whose name is the empty
string (which contains no double-quote characters): parsing the serialized
playlist substitutes the default name. -/
theorem C2_counterexample_empty_name :
    parse_m3u (generate_m3u [⟨[], "News".data, "http://u".data, []⟩]) =
      [⟨("Unknown Channel").data, "News".data, "http://u".data, []⟩] ∧
    parse_m3u (generate_m3u [⟨[], "News".data, "http://u".data, []⟩]) ≠
      [⟨[], "News".data, "http://u".data, []⟩] := by
  constructor
  · decide
  · decide

/-- C2 amended: the parse/generate round trip returns the original channel
sequence for channels whose name and category contain no double quotes and no
line breaks, are nonempty and carry no surrounding whitespace, whose url is
nonempty, break-free, whitespace-trimmed and does not start with a `#`, and
whose metadata is empty. -/
theorem C2_parse_generate_roundtrip (chans : List Channel)
    (h : ∀ ch ∈ chans, ChannelOk ch) :
    parse_m3u (generate_m3u chans) = chans := by
  rw [parse_m3u, generate_m3u]
  rw [pySplitlines_line _ (by decide)]
  rw [splitlines_channels chans h]
  rw [parseGo_header]
  exact parseGo_channels chans h _

/-- C2 witness: the round trip at a concrete well-formed channel list. -/
theorem C2_parse_generate_roundtrip_witness :
    parse_m3u (generate_m3u
      [⟨"Kanal1".data, "Spor".data, "http://x/1".data, []⟩,
       ⟨"Kanal2".data, "Haber".data, "http://x/2".data, []⟩]) =
      [⟨"Kanal1".data, "Spor".data, "http://x/1".data, []⟩,
       ⟨"Kanal2".data, "Haber".data, "http://x/2".data, []⟩] :=
  C2_parse_generate_roundtrip _ (by decide)

theorem getLast?_extinfLineTitle (n c m : List Char) :
    (extinfLineTitle n c m).getLast? = (',' :: m).getLast? := by
  rw [extinfLineTitle]
  repeat' first
    | rw [getLast?_append_right (by simp)]
    | rw [getLast?_cons_of_ne_nil (by simp)]

theorem extinfLineTitle_no_break {n c m : List Char}
    (hn : ∀ x ∈ n, isLineBreak x = false) (hc : ∀ x ∈ c, isLineBreak x = false)
    (hm : ∀ x ∈ m, isLineBreak x = false) :
    ∀ x ∈ extinfLineTitle n c m, isLineBreak x = false := by
  rw [extinfLineTitle]
  refine no_break_append (no_break_append (no_break_append (no_break_append (by decide)
    (no_break_cons (by decide) hn)) (no_break_cons (by decide) (by decide)))
    (no_break_cons (by decide) hc))
    (no_break_cons (by decide) (no_break_cons (by decide) hm))

theorem pyStrip_extinfLineX_self (n c : List Char) :
    pyStrip (extinfLineTvg n c ['X']) = extinfLineTvg n c ['X'] := by
  apply pyStrip_eq_self_head_last
  · intro x hx
    have hh : (extinfLineTvg n c ['X']).head? = some '#' := by
      rw [extinfLine_decomp_tvg]
      rfl
    rw [hh] at hx
    cases hx
    decide
  · intro x hx
    rw [getLast?_extinfLine] at hx
    cases hx
    decide

theorem pyStrip_extinfLineTitleX_self (n c : List Char) :
    pyStrip (extinfLineTitle n c ['X']) = extinfLineTitle n c ['X'] := by
  apply pyStrip_eq_self_head_last
  · intro x hx
    have hh : (extinfLineTitle n c ['X']).head? = some '#' := by
      rw [extinfLine_decomp_title]
      rfl
    rw [hh] at hx
    cases hx
    decide
  · intro x hx
    rw [getLast?_extinfLineTitle] at hx
    cases hx
    decide

theorem category_field_eq (c : List Char) :
    pyStrip (pyOrStr (some c) (pyOrStr none ("Various").data)) =
      (if c = [] then ("Various").data else pyStrip c) := by
  by_cases hc0 : c = []
  · subst hc0
    decide
  · show pyStrip (if c.isEmpty then pyOrStr none ("Various").data else c) = _
    rw [if_neg (by simp [List.isEmpty_iff, hc0]), if_neg hc0]

/-- C5 counterexample: on a directive carrying both a `tvg-group` and a later
`group-title` attribute, the greedy regex captures the LAST occurrence, so the
category comes from `group-title` (`"B"`), not from the first match
(`tvg-group`, `"A"`) as the claim states; and a directive with no attributes
at all yields no channel rather than a channel with defaults. -/
theorem C5_counterexample_last_attribute_wins :
    parse_m3u ("#EXTINF:-1 tvg-name=\"N\" tvg-group=\"A\" group-title=\"B\",N\nhttp://u").data =
      [⟨"N".data, "B".data, "http://u".data, []⟩] ∧
    (parse_m3u ("#EXTINF:-1 tvg-name=\"N\" tvg-group=\"A\" group-title=\"B\",N\nhttp://u").data).map
      (fun ch => ch.category) ≠ ["A".data] ∧
    parse_m3u ("#EXTINF:-1,Name\nhttp://u").data = [] := by
  refine ⟨by decide, by decide, by decide⟩

/-- C5 amended: for an `#EXTINF` directive containing a `tvg-name` attribute
and at least one of `tvg-group`/`group-title`, followed by a valid URL line,
the parser emits one channel whose name is the `tvg-name` value (default
`"Unknown Channel"` when that value strips to empty) and whose category is
the value of the LAST `tvg-group` or `group-title` occurrence on the line
(default `"Various"` only when that captured value is the empty string; a
whitespace-only value is stripped without the default applying).  A directive
lacking `tvg-name`, or lacking both group attributes, matches no regex and
yields no channel at all. -/
theorem C5_extinf_attribute_parsing :
    (∀ n c u : List Char, '"' ∉ n → (∀ x ∈ n, isLineBreak x = false) →
      '"' ∉ c → (∀ x ∈ c, isLineBreak x = false) →
      u ≠ [] → pyStrip u = u → (∀ x ∈ u, isLineBreak x = false) → u.head? ≠ some '#' →
      parse_m3u (extinfLineTvg n c ['X'] ++ ('\n' :: (u ++ ['\n']))) =
        [⟨pyOr (pyStrip n) ("Unknown Channel").data,
          if c = [] then ("Various").data else pyStrip c, u, []⟩]) ∧
    (∀ n c u : List Char, '"' ∉ n → (∀ x ∈ n, isLineBreak x = false) →
      '"' ∉ c → (∀ x ∈ c, isLineBreak x = false) →
      u ≠ [] → pyStrip u = u → (∀ x ∈ u, isLineBreak x = false) → u.head? ≠ some '#' →
      parse_m3u (extinfLineTitle n c ['X'] ++ ('\n' :: (u ++ ['\n']))) =
        [⟨pyOr (pyStrip n) ("Unknown Channel").data,
          if c = [] then ("Various").data else pyStrip c, u, []⟩]) ∧
    parse_m3u ("#EXTINF:-1 tvg-name=\"N\" tvg-group=\"A\" group-title=\"B\",N\nhttp://u").data =
      [⟨"N".data, "B".data, "http://u".data, []⟩] ∧
    parse_m3u ("#EXTINF:-1,Name\nhttp://u").data = [] ∧
    parse_m3u ("#EXTINF:-1 tvg-name=\"N\",X\nhttp://u").data = [] := by
  refine ⟨?_, ?_, by decide, by decide, by decide⟩
  · intro n c u hn3 hn4 hc3 hc4 hu1 hu2 hu3 hu4
    rw [parse_m3u]
    rw [pySplitlines_line _ (extinfLine_no_break hn4 hc4 (by decide))]
    rw [pySplitlines_line _ hu3]
    rw [parseGo_extinf_tvg _ _ hn3 hc3 (by decide) (pyStrip_extinfLineX_self n c)]
    rw [parseGo_url_complete _ _ _ _ hu2 hu1 hu4]
    rw [category_field_eq]
    rfl
  · intro n c u hn3 hn4 hc3 hc4 hu1 hu2 hu3 hu4
    rw [parse_m3u]
    rw [pySplitlines_line _ (extinfLineTitle_no_break hn4 hc4 (by decide))]
    rw [pySplitlines_line _ hu3]
    rw [parseGo_extinf_title _ _ hn3 hc3 (by decide) (pyStrip_extinfLineTitleX_self n c)]
    rw [parseGo_url_complete _ _ _ _ hu2 hu1 hu4]
    have e2 : pyStrip (pyOrStr none (pyOrStr (some c) ("Various").data)) =
        (if c = [] then ("Various").data else pyStrip c) := by
      by_cases hc0 : c = []
      · subst hc0
        decide
      · show pyStrip (if c.isEmpty then ("Various").data else c) = _
        rw [if_neg (by simp [List.isEmpty_iff, hc0]), if_neg hc0]
    rw [e2]
    rfl

/-- C5 witness: the amended parsing rules applied at concrete directive
lines (`tvg-name="Kanal1"` with a `tvg-group` and with a `group-title`). -/
theorem C5_extinf_attribute_parsing_witness :
    parse_m3u (extinfLineTvg ("Kanal1").data ("Spor").data ['X'] ++
        ('\n' :: (("http://x/1").data ++ ['\n']))) =
      [⟨pyOr (pyStrip ("Kanal1").data) ("Unknown Channel").data,
        if ("Spor").data = [] then ("Various").data else pyStrip ("Spor").data,
        ("http://x/1").data, []⟩] ∧
    parse_m3u (extinfLineTitle ("Kanal1").data ("Spor").data ['X'] ++
        ('\n' :: (("http://x/1").data ++ ['\n']))) =
      [⟨pyOr (pyStrip ("Kanal1").data) ("Unknown Channel").data,
        if ("Spor").data = [] then ("Various").data else pyStrip ("Spor").data,
        ("http://x/1").data, []⟩] :=
  ⟨C5_extinf_attribute_parsing.1 ("Kanal1").data ("Spor").data ("http://x/1").data
      (by decide) (by decide) (by decide) (by decide) (by decide) (by decide) (by decide)
      (by decide),
   C5_extinf_attribute_parsing.2.1 ("Kanal1").data ("Spor").data ("http://x/1").data
      (by decide) (by decide) (by decide) (by decide) (by decide) (by decide) (by decide)
      (by decide)⟩

/-- C8 failing input: a directive whose `tvg-group` value is a single space.
The code applies the `"Various"` default before stripping, so the stored
category is the empty string, violating the non-empty invariant (name and url
remain non-empty). -/
theorem C8_whitespace_group_empty_category :
    parse_m3u ("#EXTINF:-1 tvg-name=\"N\" tvg-group=\" \"\nhttp://u").data =
      [⟨"N".data, [], "http://u".data, []⟩] := by
  decide

/-- Network outcome of the single HTTP GET issued by `download_m3u` for one
source URL: a terminal response (status code and body text), an
`aiohttp.ClientError`, or an `asyncio.TimeoutError`. -/
inductive FetchOutcome where
  | ok (status : Nat) (body : List Char)
  | clientError
  | timeout
deriving DecidableEq

/-- A Python exception escaping a function uncaught. -/
inductive PyExc where
  | timeoutError
deriving DecidableEq

instance instDecEqExcept {ε α : Type} [DecidableEq ε] [DecidableEq α] :
    DecidableEq (Except ε α) := fun x y =>
  match x, y with
  | .error a, .error b =>
    match decEq a b with
    | .isTrue h => .isTrue (congrArg Except.error h)
    | .isFalse h => .isFalse (fun hc => h (by cases hc; rfl))
  | .error _, .ok _ => .isFalse (fun hc => Except.noConfusion hc)
  | .ok _, .error _ => .isFalse (fun hc => Except.noConfusion hc)
  | .ok a, .ok b =>
    match decEq a b with
    | .isTrue h => .isTrue (congrArg Except.ok h)
    | .isFalse h => .isFalse (fun hc => h (by cases hc; rfl))

/-- `download_m3u` of `src/script.py`: `raise_for_status` raises
`ClientResponseError` (a subclass of `aiohttp.ClientError`) for statuses
≥ 400, and the `except aiohttp.ClientError` clause logs and returns `None`;
an `asyncio.TimeoutError` matches no except clause and propagates. -/
def download_m3u : FetchOutcome → Except PyExc (Option (List Char))
  | .ok status body => if status < 400 then .ok (some body) else .ok none
  | .clientError => .ok none
  | .timeout => .error .timeoutError

/-- `process_m3u_sources`: download each source sequentially;
`if m3u_content:` skips both `None` and the empty string; channels of the
remaining sources are concatenated in order; an uncaught exception aborts
the loop and propagates. -/
def process_m3u_sources : List FetchOutcome → Except PyExc (List Channel)
  | [] => .ok []
  | f :: rest =>
    match download_m3u f with
    | .error e => .error e
    | .ok content =>
      match process_m3u_sources rest with
      | .error e => .error e
      | .ok restChannels =>
        match content with
        | none => .ok restChannels
        | some c => .ok (if c.isEmpty then restChannels else parse_m3u c ++ restChannels)

/-- Network outcome of the GET issued by `check_url` for one channel URL. -/
inductive ProbeOutcome where
  | ok (status : Nat)
  | clientError
  | timeout
deriving DecidableEq

/-- `check_url` of `src/script.py`: returns the url when `raise_for_status`
passes; both `aiohttp.ClientError` and `asyncio.TimeoutError` are caught and
give `None`, so the coroutine never raises.  (The semaphore taken around the
body is modelled separately as a transition system.) -/
def check_url (url : List Char) : ProbeOutcome → Except PyExc (Option (List Char))
  | .ok status => if status < 400 then .ok (some url) else .ok none
  | .clientError => .ok none
  | .timeout => .ok none

/-- `asyncio.gather` (default `return_exceptions=False`): one result per task
in task order, re-raising if a task raised. -/
def gatherE : List (Except PyExc (Option (List Char))) →
    Except PyExc (List (Option (List Char)))
  | [] => .ok []
  | r :: rs =>
    match r with
    | .error e => .error e
    | .ok v =>
      match gatherE rs with
      | .error e => .error e
      | .ok vs => .ok (v :: vs)

/-- `remove_dead_links`: one `check_url` task per channel (the `probes` list
supplies the network outcome of each channel's own probe), gathered in task
order, then `[ch for ch, result in zip(channels, results) if result is not
None]`. -/
def remove_dead_links (channels : List Channel) (probes : List ProbeOutcome) :
    Except PyExc (List Channel) :=
  match gatherE ((channels.zip probes).map fun cp => check_url cp.1.url cp.2) with
  | .error e => .error e
  | .ok results => .ok (((channels.zip results).filter fun cr => cr.2.isSome).map Prod.fst)

/-- The probes `check_url` maps to a non-`None` (kept) result. -/
def probeAlive : ProbeOutcome → Bool
  | .ok status => decide (status < 400)
  | .clientError => false
  | .timeout => false

/-- Completion-order model of the gather in `remove_dead_links`: each task
owns one result slot and writes it when it completes; `sched` lists the task
indices in network completion order. -/
def scheduleRun (tasks : List Bool) (sched : List Nat) : List (Option Bool) :=
  sched.foldl (fun acc i => acc.set i (some (tasks.getD i false)))
    (List.replicate tasks.length none)

/-- The tail of `main` after liveness filtering: three `clean_channels`
passes over the same channel list (whose `Channel` objects the passes mutate
in place), with the file content taken from the third pass's return value. -/
def main_written_file (channels : List Channel) : List Char :=
  let p1 := clean_channelsM channels false false
  let p2 := clean_channelsM p1.1 true false
  let p3 := clean_channelsM p2.1 true true
  generate_m3u p3.2

/-- `main` of `src/script.py`: fetch and parse all sources, liveness-filter,
run the three cleaning passes, then open `filtered_playlist.m3u` and write.
The value is `some` written file content when `main` completes (there is no
zero-channel early return), `.error` when an exception escapes. -/
def main (fetches : List FetchOutcome) (probes : List ProbeOutcome) :
    Except PyExc (Option (List Char)) :=
  match process_m3u_sources fetches with
  | .error e => .error e
  | .ok all_channels =>
    match remove_dead_links all_channels probes with
    | .error e => .error e
    | .ok channels => .ok (some (main_written_file channels))

theorem get?_set_cond (l : List (Option Bool)) (i j : Nat) (v : Option Bool) :
    (l.set i v).get? j = if i = j ∧ i < l.length then some v else l.get? j := by
  rw [List.get?_eq_getElem?, List.get?_eq_getElem?, List.getElem?_set]
  by_cases h : i = j
  · subst h
    by_cases h2 : i < l.length
    · simp [h2]
    · simp [h2, List.getElem?_eq_none (by omega : l.length ≤ i)]
  · simp [h]

theorem foldl_set_get? (tasks : List Bool) (sched : List Nat)
    (acc : List (Option Bool)) (j : Nat) :
    (sched.foldl (fun a i => a.set i (some (tasks.getD i false))) acc).get? j =
      if j ∈ sched ∧ j < acc.length then some (some (tasks.getD j false))
      else acc.get? j := by
  induction sched generalizing acc with
  | nil => simp
  | cons i is ih =>
    rw [List.foldl_cons, ih, List.length_set]
    by_cases h1 : j ∈ is ∧ j < acc.length
    · rw [if_pos h1, if_pos ⟨List.mem_cons.2 (Or.inr h1.1), h1.2⟩]
    · rw [if_neg h1, get?_set_cond]
      by_cases h2 : i = j ∧ i < acc.length
      · obtain ⟨hij, hlen⟩ := h2
        subst hij
        rw [if_pos ⟨rfl, hlen⟩, if_pos ⟨List.mem_cons.2 (Or.inl rfl), hlen⟩]
      · rw [if_neg h2, if_neg ?hn]
        case hn =>
          intro hc
          rcases List.mem_cons.1 hc.1 with he | hm
          · exact h2 ⟨he.symm, he ▸ hc.2⟩
          · exact h1 ⟨hm, hc.2⟩

theorem scheduleRun_perm (tasks : List Bool) (sched : List Nat)
    (h : sched.Perm (List.range tasks.length)) :
    scheduleRun tasks sched = tasks.map some := by
  apply List.ext_get?
  intro j
  show (sched.foldl (fun a i => a.set i (some (tasks.getD i false)))
      (List.replicate tasks.length none)).get? j = _
  rw [foldl_set_get?, List.length_replicate]
  have hmem : j ∈ sched ↔ j < tasks.length := by rw [h.mem_iff, List.mem_range]
  by_cases hj : j < tasks.length
  · rw [if_pos ⟨hmem.2 hj, hj⟩]
    rw [List.get?_eq_getElem?, List.getElem?_map, List.getElem?_eq_getElem hj]
    rw [List.getD_eq_getElem tasks false hj]
    rfl
  · rw [if_neg (fun hc => hj hc.2)]
    rw [List.get?_eq_getElem?, List.get?_eq_getElem?]
    rw [List.getElem?_eq_none (by simpa using hj), List.getElem?_eq_none (by simpa using hj)]

theorem gatherE_ok_cons (v : Option (List Char)) (rs : List (Except PyExc (Option (List Char)))) :
    gatherE (.ok v :: rs) =
      match gatherE rs with
      | .error e => .error e
      | .ok vs => .ok (v :: vs) := rfl

theorem check_url_alive (u : List Char) (p : ProbeOutcome) :
    check_url u p = .ok (if probeAlive p then some u else none) := by
  cases p with
  | ok s =>
    by_cases hs : s < 400
    · simp [check_url, probeAlive, hs]
    · simp [check_url, probeAlive, hs]
  | clientError => rfl
  | timeout => rfl

theorem gatherE_checks (channels : List Channel) (probes : List ProbeOutcome) :
    gatherE ((channels.zip probes).map fun cp => check_url cp.1.url cp.2) =
      .ok ((channels.zip probes).map fun cp =>
        if probeAlive cp.2 then some cp.1.url else none) := by
  induction channels generalizing probes with
  | nil => rfl
  | cons ch cs ih =>
    cases probes with
    | nil => rfl
    | cons p ps =>
      rw [List.zip_cons_cons, List.map_cons, List.map_cons, check_url_alive,
        gatherE_ok_cons, ih]

theorem zip_filter_results (channels : List Channel) (probes : List ProbeOutcome) :
    ((channels.zip ((channels.zip probes).map fun cp =>
        if probeAlive cp.2 then some cp.1.url else none)).filter
          fun cr => cr.2.isSome).map Prod.fst =
      ((channels.zip probes).filter fun cp => probeAlive cp.2).map Prod.fst := by
  induction channels generalizing probes with
  | nil => rfl
  | cons ch cs ih =>
    cases probes with
    | nil => rfl
    | cons p ps =>
      rw [List.zip_cons_cons, List.map_cons, List.zip_cons_cons, List.filter_cons,
        List.filter_cons]
      by_cases hp : probeAlive p = true
      · simp only [hp, if_true, Option.isSome_some, List.map_cons, ih]
      · simp only [hp, if_false, Bool.false_eq_true, Option.isSome_none, ih]

theorem remove_dead_links_eq (channels : List Channel) (probes : List ProbeOutcome) :
    remove_dead_links channels probes =
      .ok (((channels.zip probes).filter fun cp => probeAlive cp.2).map Prod.fst) := by
  show (match gatherE ((channels.zip probes).map fun cp => check_url cp.1.url cp.2) with
    | Except.error e => Except.error e
    | Except.ok results =>
        Except.ok (((channels.zip results).filter
          fun cr : Channel × Option (List Char) => cr.2.isSome).map Prod.fst)) = _
  rw [gatherE_checks]
  exact congrArg Except.ok (zip_filter_results channels probes)

theorem map_fst_zip_sublist (channels : List Channel) (probes : List ProbeOutcome) :
    List.Sublist ((channels.zip probes).map Prod.fst) channels := by
  induction channels generalizing probes with
  | nil => simp
  | cons a l ih =>
    cases probes with
    | nil => simp
    | cons b r => simpa using List.Sublist.cons₂ a (ih r)

theorem filter_zip_fst_sublist (channels : List Channel) (probes : List ProbeOutcome)
    (q : Channel × ProbeOutcome → Bool) :
    List.Sublist (((channels.zip probes).filter q).map Prod.fst) channels :=
  (List.Sublist.map Prod.fst (List.filter_sublist _)).trans
    (map_fst_zip_sublist channels probes)

/-- C3: `remove_dead_links` never raises and returns exactly the channels
whose own probe came back alive (a terminal response passing
`raise_for_status`), paired index-wise: the result is the in-order
subsequence of the input; a client error or timeout on one probe only makes
that channel's own result `None` (`check_url` always returns, never raises,
so `gather` is never aborted); and the gather is completion-order
independent — running the per-slot result writes in any completion order
(any permutation of the task indices) yields the same result list, indexed
by original position. -/
theorem C3_remove_dead_links_order_and_isolation :
    (∀ (channels : List Channel) (probes : List ProbeOutcome),
      remove_dead_links channels probes =
        .ok (((channels.zip probes).filter fun cp => probeAlive cp.2).map Prod.fst)) ∧
    (∀ (channels : List Channel) (probes : List ProbeOutcome) (kept : List Channel),
      remove_dead_links channels probes = .ok kept → List.Sublist kept channels) ∧
    (∀ (u : List Char) (p : ProbeOutcome), ∃ r, check_url u p = .ok r) ∧
    (∀ (tasks : List Bool) (sched : List Nat), sched.Perm (List.range tasks.length) →
      scheduleRun tasks sched = tasks.map some) := by
  refine ⟨remove_dead_links_eq, ?_, ?_, scheduleRun_perm⟩
  · intro channels probes kept h
    rw [remove_dead_links_eq] at h
    cases h
    exact filter_zip_fst_sublist channels probes _
  · intro u p
    exact ⟨if probeAlive p then some u else none, check_url_alive u p⟩

/-- C3 witness: the liveness filter at a concrete channel list (the middle
probe times out: only its own channel is dropped, order preserved), and the
completion-order model at a concrete out-of-order schedule. -/
theorem C3_remove_dead_links_order_and_isolation_witness :
    List.Sublist
      [(⟨("A").data, ("C").data, ("http://a").data, []⟩ : Channel),
       ⟨("C").data, ("C").data, ("http://c").data, []⟩]
      [⟨("A").data, ("C").data, ("http://a").data, []⟩,
       ⟨("B").data, ("C").data, ("http://b").data, []⟩,
       ⟨("C").data, ("C").data, ("http://c").data, []⟩] ∧
    scheduleRun [true, false, true] [2, 0, 1] = [true, false, true].map some :=
  ⟨C3_remove_dead_links_order_and_isolation.2.1
      [⟨("A").data, ("C").data, ("http://a").data, []⟩,
       ⟨("B").data, ("C").data, ("http://b").data, []⟩,
       ⟨("C").data, ("C").data, ("http://c").data, []⟩]
      [ProbeOutcome.ok 200, ProbeOutcome.timeout, ProbeOutcome.ok 200]
      [⟨("A").data, ("C").data, ("http://a").data, []⟩,
       ⟨("C").data, ("C").data, ("http://c").data, []⟩]
      (by decide),
   C3_remove_dead_links_order_and_isolation.2.2.2 [true, false, true] [2, 0, 1]
      (by decide)⟩

/-- C4 divergence: the spec says a fetch timeout is logged and yields no
content for that source with the pipeline continuing, but `download_m3u`
catches only `aiohttp.ClientError`; an `asyncio.TimeoutError` propagates out
of `download_m3u`, aborts `process_m3u_sources` before the remaining sources
(here a healthy second source), and aborts `main` (no file written).  By
contrast a client error does yield `None`, and `check_url` — which lists
both exception types — absorbs its timeout. -/
theorem C4_fetch_timeout_propagates :
    download_m3u .timeout = .error .timeoutError ∧
    process_m3u_sources [.timeout, .ok 200 ("#EXTM3U\n").data] = .error .timeoutError ∧
    main [.timeout] [] = .error .timeoutError ∧
    download_m3u .clientError = .ok none ∧
    check_url ("http://u").data .timeout = .ok none :=
  ⟨rfl, rfl, rfl, rfl, rfl⟩

/-- C1 counterexample: when every source fetch fails with a client error,
zero channels are parsed, yet `main` completes and writes the (non-empty)
header-only playlist — there is no zero-channel guard in `main`, so the
claim "exits without creating or modifying the output file" is false. -/
theorem C1_counterexample_zero_channels_still_written :
    process_m3u_sources [.clientError, .clientError] = .ok [] ∧
    main [.clientError, .clientError] [] = .ok (some (("#EXTM3U\n").data)) ∧
    ("#EXTM3U\n").data ≠ [] := by
  refine ⟨by decide, by decide, by decide⟩

/-- C1 amended: whenever aggregation over all sources yields zero channels
(and no exception), `main` does not halt: it runs the remaining pipeline on
the empty list and writes the output file with the header-only content
`"#EXTM3U\n"`. -/
theorem C1_zero_channels_header_only_file (fetches : List FetchOutcome)
    (probes : List ProbeOutcome) (h : process_m3u_sources fetches = .ok []) :
    main fetches probes = .ok (some (("#EXTM3U\n").data)) := by
  show (match process_m3u_sources fetches with
    | Except.error e => Except.error e
    | Except.ok all_channels =>
      match remove_dead_links all_channels probes with
      | Except.error e => Except.error e
      | Except.ok channels => Except.ok (some (main_written_file channels))) = _
  rw [h]
  rfl

/-- C1 witness: a single unreachable source still produces the header-only
output file. -/
theorem C1_zero_channels_header_only_file_witness :
    process_m3u_sources [FetchOutcome.clientError] = .ok [] ∧
    main [FetchOutcome.clientError] [ProbeOutcome.timeout] = .ok (some (("#EXTM3U\n").data)) :=
  ⟨by decide, C1_zero_channels_header_only_file [FetchOutcome.clientError]
      [ProbeOutcome.timeout] (by decide)⟩

/-- C10 counterexample: with the single post-liveness channel
`{name = "A", category = "XXX Movies", url = "http://u"}`, the earlier
passes change the written file: pass 1 drops the channel without mutating it,
pass 2 (substring mapping) rewrites its category in place to `"Movies"`, and
pass 3 (difflib) then keeps it, so the file contains the channel — whereas
`generate_m3u (clean_channels channels true true)` over the original list is
the bare header, since difflib finds no close key for `"Xxx Movies"` and the
deny-list drops it.  The first two passes therefore do affect file
contents. -/
theorem C10_counterexample_earlier_passes_affect_file :
    main_written_file [⟨("A").data, ("XXX Movies").data, ("http://u").data, []⟩] =
      ("#EXTM3U\n#EXTINF:-1 tvg-name=\"A\" tvg-group=\"Movies\",A\nhttp://u\n").data ∧
    generate_m3u (clean_channels
        [⟨("A").data, ("XXX Movies").data, ("http://u").data, []⟩] true true) =
      ("#EXTM3U\n").data ∧
    main_written_file [⟨("A").data, ("XXX Movies").data, ("http://u").data, []⟩] ≠
      generate_m3u (clean_channels
        [⟨("A").data, ("XXX Movies").data, ("http://u").data, []⟩] true true) := by
  refine ⟨by decide, by decide, by decide⟩

/-- C10 amended: the file written by `main` is `generate_m3u` of the
difflib-mode `clean_channels` pass applied to the channel list AS MUTATED IN
PLACE by the two preceding passes (each pass rewrites the category field of
every channel it keeps), not to the original list; the passes never change a
channel's name, url or metadata, only its category. -/
theorem C10_written_file_three_mutating_passes :
    (∀ channels : List Channel,
      main_written_file channels =
        generate_m3u (clean_channels
          (clean_channelsM (clean_channelsM channels false false).1 true false).1
          true true)) ∧
    (∀ (l : List Channel) (m d : Bool),
      ((clean_channelsM l m d).1).map (fun ch => (ch.name, ch.url, ch.metadata)) =
        l.map (fun ch => (ch.name, ch.url, ch.metadata))) := by
  constructor
  · intro channels
    rfl
  · intro l m d
    induction l with
    | nil => rfl
    | cons ch rest ih =>
      show (if isFiltered (normalize_category ch.category m d) then
          (ch :: (clean_channelsM rest m d).1, (clean_channelsM rest m d).2)
        else
          ((⟨ch.name, normalize_category ch.category m d, ch.url, ch.metadata⟩ : Channel) ::
              (clean_channelsM rest m d).1,
            (⟨ch.name, normalize_category ch.category m d, ch.url, ch.metadata⟩ : Channel) ::
              (clean_channelsM rest m d).2)).1.map
          (fun ch => (ch.name, ch.url, ch.metadata)) = _
      by_cases hf : isFiltered (normalize_category ch.category m d) = true
      · rw [if_pos hf, List.map_cons, ih, List.map_cons]
      · rw [if_neg hf, List.map_cons, ih, List.map_cons]

/-- State of one `check_url` task with respect to the semaphore: not yet
entered `async with sem`, holding a permit with its request in flight, or
done (permit released). -/
inductive TaskPhase where
  | waiting
  | running
  | finished
deriving DecidableEq

def isRunning : TaskPhase → Bool
  | .running => true
  | _ => false

/-- Global state of `remove_dead_links`'s gather: the phase of every task
plus the free permit count of the shared `asyncio.Semaphore`. -/
structure SemSt where
  tasks : List TaskPhase
  permits : Nat
deriving DecidableEq

/-- Scheduler steps: `acquire` is entry into `async with sem` (only possible
when a permit is free, consuming it); `release` is exit (returning it). -/
inductive SemStep : SemSt → SemSt → Prop
  | acquire (pre post : List TaskPhase) (n : Nat) :
      SemStep ⟨pre ++ .waiting :: post, n + 1⟩ ⟨pre ++ .running :: post, n⟩
  | release (pre post : List TaskPhase) (n : Nat) :
      SemStep ⟨pre ++ .running :: post, n⟩ ⟨pre ++ .finished :: post, n + 1⟩

/-- States reachable in `remove_dead_links`: all `check_url` tasks start
waiting and `asyncio.Semaphore(10)` starts with 10 free permits. -/
inductive SemReach : SemSt → Prop
  | init (k : Nat) : SemReach ⟨List.replicate k .waiting, 10⟩
  | step {s t : SemSt} : SemReach s → SemStep s t → SemReach t

def countRunning (tasks : List TaskPhase) : Nat := tasks.countP isRunning

theorem countRunning_replicate_waiting (k : Nat) :
    countRunning (List.replicate k .waiting) = 0 := by
  induction k with
  | zero => rfl
  | succ n ih =>
    rw [List.replicate_succ]
    show countRunning (List.replicate n .waiting) + (if isRunning .waiting then 1 else 0) = 0
    rw [ih]
    rfl

theorem semInv {s : SemSt} (h : SemReach s) :
    countRunning s.tasks + s.permits = 10 := by
  induction h with
  | init k => simp [countRunning_replicate_waiting]
  | step hr hstep ih =>
    cases hstep with
    | acquire pre post n =>
      simp [countRunning, List.countP_append, List.countP_cons, isRunning] at ih ⊢
      omega
    | release pre post n =>
      simp [countRunning, List.countP_append, List.countP_cons, isRunning] at ih ⊢
      omega

/-- C9: in every reachable state of the liveness checker, the number of
requests in flight plus the free permits equals the fixed permit count 10,
hence at most 10 requests are ever in flight simultaneously; and any step
that increases the in-flight count (a task entering `async with sem`) is
possible only when a permit is free, so a probe beyond the bound must wait
for a release. -/
theorem C9_semaphore_bounds_concurrency :
    (∀ s : SemSt, SemReach s →
      countRunning s.tasks + s.permits = 10 ∧ countRunning s.tasks ≤ 10) ∧
    (∀ s t : SemSt, SemStep s t →
      countRunning t.tasks = countRunning s.tasks + 1 → 0 < s.permits) := by
  constructor
  · intro s h
    have hi := semInv h
    exact ⟨hi, by omega⟩
  · intro s t hstep
    cases hstep with
    | acquire pre post n =>
      intro _
      exact Nat.succ_pos n
    | release pre post n =>
      intro h
      simp [countRunning, List.countP_append, List.countP_cons, isRunning] at h
      omega

/-- C9 witness: the invariant at the initial state with three probes, and
the permit requirement at a concrete acquire step. -/
theorem C9_semaphore_bounds_concurrency_witness :
    (countRunning (List.replicate 3 TaskPhase.waiting) + 10 = 10 ∧
      countRunning (List.replicate 3 TaskPhase.waiting) ≤ 10) ∧
    (0 : Nat) < 10 :=
  ⟨C9_semaphore_bounds_concurrency.1 ⟨List.replicate 3 .waiting, 10⟩ (SemReach.init 3),
   C9_semaphore_bounds_concurrency.2 ⟨[.waiting], 10⟩ ⟨[.running], 9⟩
      (SemStep.acquire [] [] 9) (by decide)⟩

end IPTV

